import Mathlib

/-!
Verification development for the FOMC stance-tracker core
(`fomc_tracker/`): a shallow embedding in Lean 4 of the keyword
classifier and backend router (`stance_classifier.py`), the historical
stance store (`historical_data.py`), the meeting calendar
(`meeting_calendar.py`) and the weighted policy-signal engine
(`policy_signal.py`), together with theorems settling the behavioural
claims about those components.

Modelling conventions:
* Python `float` values are modelled as `ℚ`; the program only ever
  produces exact decimal fractions (dictionary weights, seed scores,
  values rounded to 2 or 3 decimal places), so `ℚ` represents them
  exactly.  Python `round(x, n)` is banker's rounding, modelled by
  `roundHalfEven`.
* Python `str` order and `str.count` are code-point based; they are
  modelled on `List Char` so that the kernel can evaluate them.
* The on-disk JSON store is modelled as an association list
  `History = List (String × List StanceEntry)` in key-insertion order,
  mirroring Python `dict` semantics (`dictSet` replaces in place or
  appends).  `save_history` writes the whole store, so the store state
  after a write is the written value itself.
* Raising Python callables (classifier backends) are modelled as
  functions into `Option`: `none` models a raised exception.
-/

namespace FomcTracker

/-! ### Code-point string order and substring counting -/

/-- Lexicographic code-point order on character lists, the order Python
uses to compare `str` values (dates compare this way). -/
def charListLe : List Char → List Char → Bool
  | [], _ => true
  | _ :: _, [] => false
  | a :: as, b :: bs =>
    if a < b then true
    else if b < a then false
    else charListLe as bs

/-- Python string `<=` on the underlying character data. -/
def strLe (a b : String) : Bool :=
  charListLe a.data b.data

/-- Whitespace test used by normalization (models the `\s` class of
`re.sub` for the whitespace actually occurring in this program). -/
def isWsChar (c : Char) : Bool := c.isWhitespace

/-- Python `str.strip()`: drop whitespace from both ends. -/
def trimWs (l : List Char) : List Char :=
  ((l.dropWhile isWsChar).reverse.dropWhile isWsChar).reverse

/-- Collapse every run of whitespace to a single space, the effect of
`re.sub(r"\s+", " ", ·)`. -/
def collapseWs : List Char → List Char
  | [] => []
  | [c] => [if isWsChar c then ' ' else c]
  | c1 :: c2 :: rest =>
    if isWsChar c1 && isWsChar c2 then collapseWs (c2 :: rest)
    else (if isWsChar c1 then ' ' else c1) :: collapseWs (c2 :: rest)

/-- `_normalize` from `stance_classifier.py`: lowercase, strip, and
collapse internal whitespace. -/
def normalizeText (s : String) : List Char :=
  collapseWs (trimWs (s.data.map Char.toLower))

/-- Fuel-indexed helper for non-overlapping substring counting; the
fuel is the length of the haystack, which bounds the recursion. -/
def countOccsAux (needle : List Char) : Nat → List Char → Nat
  | 0, _ => 0
  | _ + 1, [] => 0
  | fuel + 1, c :: rest =>
    if needle.isPrefixOf (c :: rest) then
      1 + countOccsAux needle fuel ((c :: rest).drop needle.length)
    else
      countOccsAux needle fuel rest

/-- Python `str.count`: number of non-overlapping occurrences of
`needle` in `hay`, scanning left to right. -/
def countOccs (needle hay : List Char) : Nat :=
  if needle.isEmpty then hay.length + 1
  else countOccsAux needle hay.length hay

/-- Occurrence count of a dictionary term in normalized text:
`normalized.count(term.lower())`. -/
def occursCount (term : String) (normalized : List Char) : Nat :=
  countOccs (term.data.map Char.toLower) normalized

/-! ### Banker's rounding (Python `round`) -/

/-- Round a rational to the nearest integer, ties to even — the
semantics of Python `round(x)`. -/
def roundHalfEven (q : ℚ) : ℤ :=
  let f := ⌊q⌋
  let r := q - f
  if r < 1/2 then f
  else if 1/2 < r then f + 1
  else if f % 2 = 0 then f else f + 1

/-- Python `round(x, 3)`. -/
def round3 (q : ℚ) : ℚ := (roundHalfEven (q * 1000) : ℚ) / 1000

/-- Python `round(x, 2)`. -/
def round2 (q : ℚ) : ℚ := (roundHalfEven (q * 100) : ℚ) / 100

/-! ### Configuration constants (`defaults.py`) -/

def HAWKISH_THRESHOLD : ℚ := 1.5

def DOVISH_THRESHOLD : ℚ := -1.5

def POLICY_VS_BS_WEIGHT : ℚ := 0.7

def QUOTE_CONTEXT_CHARS : Nat := 120

/-- Modelled from the spec: `fomc_tracker/config.py` is not in the
sources (only `defaults.py` and the structurally identical
`boe_tracker/config.py` are); per the spec, `score_label` maps a score
to Hawkish / Dovish / Neutral via the two fixed thresholds, which in
the default deployment are the `defaults.py` values above. -/
def score_label (score : ℚ) : String :=
  if score > HAWKISH_THRESHOLD then "Hawkish"
  else if score < DOVISH_THRESHOLD then "Dovish"
  else "Neutral"

/-! ### Term dictionaries (`stance_classifier.py`) -/

/-- Policy-dimension hawkish phrase weights. -/
def POLICY_HAWKISH_TERMS : List (String × ℚ) := [
  ("raise rates", 1.0), ("rate hike", 1.0), ("rate increase", 0.9),
  ("tighten", 0.8), ("tightening", 0.8), ("restrictive", 0.7),
  ("sufficiently restrictive", 0.8), ("more restrictive", 0.9),
  ("higher for longer", 0.9), ("too high inflation", 0.8),
  ("inflation persistent", 0.7), ("inflation expectations unanchored", 0.9),
  ("price stability", 0.5), ("overheating", 0.7), ("hot economy", 0.6),
  ("strong labor market", 0.4), ("wage pressures", 0.6), ("wage growth", 0.4),
  ("upside risks to inflation", 0.8), ("not yet done", 0.6),
  ("more work to do", 0.6), ("premature", 0.7), ("premature to cut", 0.9),
  ("too soon to cut", 0.9), ("patient", 0.4), ("no rush", 0.5),
  ("no hurry", 0.5), ("cautious", 0.3), ("vigilant", 0.5),
  ("demand too strong", 0.6), ("above target", 0.5), ("sticky inflation", 0.7),
  ("core inflation elevated", 0.7), ("inflation not beaten", 0.7),
  ("further tightening", 0.9), ("additional rate increases", 0.9),
  ("bumpy road", 0.4), ("not convinced", 0.5)]

/-- Policy-dimension dovish phrase weights. -/
def POLICY_DOVISH_TERMS : List (String × ℚ) := [
  ("cut rates", 1.0), ("rate cut", 1.0), ("rate reduction", 0.9),
  ("lower rates", 0.8), ("easing", 0.8), ("ease policy", 0.9),
  ("accommodative", 0.8), ("more accommodative", 0.9),
  ("support growth", 0.6), ("support the economy", 0.6),
  ("downside risks", 0.7), ("recession risk", 0.8), ("recession", 0.6),
  ("slowdown", 0.6), ("economic weakness", 0.7), ("job losses", 0.7),
  ("rising unemployment", 0.8), ("unemployment", 0.4),
  ("labor market softening", 0.7), ("labor market cooling", 0.6),
  ("inflation falling", 0.6), ("inflation declining", 0.6),
  ("disinflation", 0.7), ("progress on inflation", 0.5),
  ("inflation moving down", 0.6), ("inflation heading toward target", 0.6),
  ("maximum employment", 0.5), ("full employment", 0.4),
  ("below target", 0.5), ("not restrictive enough", 0.3), ("gradual", 0.3),
  ("appropriate to reduce", 0.8), ("time to cut", 0.9), ("ready to cut", 0.9),
  ("case for cutting", 0.8), ("pause tightening", 0.6), ("stop raising", 0.7),
  ("overly restrictive", 0.8), ("too restrictive", 0.8),
  ("risks becoming too restrictive", 0.7), ("balanced risks", 0.3),
  ("soft landing", 0.5), ("achieving soft landing", 0.5)]

/-- Balance-sheet hawkish (QT) phrase weights. -/
def BS_HAWKISH_TERMS : List (String × ℚ) := [
  ("quantitative tightening", 0.9), ("reduce balance sheet", 0.9),
  ("shrink balance sheet", 0.8), ("reducing balance sheet", 0.7),
  ("balance sheet runoff", 0.7), ("reduce holdings", 0.7),
  ("treasury runoff", 0.6), ("mbs runoff", 0.6),
  ("normalize balance sheet", 0.6), ("balance sheet normalization", 0.6),
  ("too large balance sheet", 0.7), ("unwind", 0.5), ("wind down", 0.5)]

/-- Balance-sheet dovish (QE) phrase weights. -/
def BS_DOVISH_TERMS : List (String × ℚ) := [
  ("quantitative easing", 0.9), ("expand balance sheet", 0.9),
  ("asset purchases", 0.8), ("slow runoff", 0.8), ("taper runoff", 0.8),
  ("pause runoff", 0.9), ("slow the pace of runoff", 0.8),
  ("reinvest", 0.7), ("reinvestment", 0.7), ("maintain balance sheet", 0.4),
  ("end qt", 0.9), ("stop qt", 0.9), ("ample reserves", 0.5),
  ("reserve scarcity", 0.6), ("repo pressures", 0.5)]

/-! ### Keyword classifier (`stance_classifier.py`) -/

/-- Result record of a classification, mirroring the
`ClassificationResult` dataclass (kept fields). -/
structure ClassificationResult where
  score : ℚ
  label : String
  confidence : ℚ
  hawkish_matches : List String
  dovish_matches : List String
  snippet_count : Nat
  policy_score : ℚ := 0
  policy_label : String := "Neutral"
  balance_sheet_score : ℚ := 0
  balance_sheet_label : String := "Neutral"
deriving DecidableEq

/-- One direction of `_score_dimension`: the accumulation loop over a
term dictionary, returning the weighted occurrence score and the list
of matched terms in dictionary order. -/
def dimensionScore (normalized : List Char) :
    List (String × ℚ) → ℚ × List String
  | [] => (0, [])
  | tw :: rest =>
    let c := occursCount tw.1 normalized
    let acc := dimensionScore normalized rest
    if 0 < c then (tw.2 * c + acc.1, tw.1 :: acc.2) else acc

/-- The specification-side weighted occurrence sum of a dictionary:
`Σ weight · count` over all phrases. -/
def termSum (normalized : List Char) (terms : List (String × ℚ)) : ℚ :=
  (terms.map (fun tw => tw.2 * (occursCount tw.1 normalized : ℚ))).sum

/-- `_score_dimension`: returns
(raw score, confidence, hawkish matches, dovish matches). -/
def score_dimension (normalized : List Char)
    (hawkish_terms dovish_terms : List (String × ℚ)) :
    ℚ × ℚ × List String × List String :=
  let h := dimensionScore normalized hawkish_terms
  let d := dimensionScore normalized dovish_terms
  let total := h.1 + d.1
  if total = 0 then (0, 0, [], [])
  else (5 * (h.1 - d.1) / total, min (total / 5) 1, h.2, d.2)

/-- Stable insertion into a string list sorted by code-point order. -/
def insortStr (s : String) : List String → List String
  | [] => [s]
  | x :: xs => if strLe x s then x :: insortStr s xs else s :: x :: xs

/-- Python `sorted(set(l))` for strings: deduplicate, then sort. -/
def sortedDedup (l : List String) : List String :=
  l.dedup.foldl (fun acc s => insortStr s acc) []

/-- `classify_text_keyword`: dual-dimension keyword classification of a
single text. -/
def classify_text_keyword (text : String) : ClassificationResult :=
  let normalized := normalizeText text
  let p := score_dimension normalized POLICY_HAWKISH_TERMS POLICY_DOVISH_TERMS
  let b := score_dimension normalized BS_HAWKISH_TERMS BS_DOVISH_TERMS
  let policy_score := p.1
  let policy_conf := p.2.1
  let bs_score := b.1
  let bs_conf := b.2.1
  let overall_score :=
    if bs_conf = 0 then policy_score
    else POLICY_VS_BS_WEIGHT * policy_score + (1 - POLICY_VS_BS_WEIGHT) * bs_score
  let total_conf := policy_conf + bs_conf
  if total_conf = 0 then
    { score := 0, label := "Neutral", confidence := 0,
      hawkish_matches := [], dovish_matches := [], snippet_count := 1 }
  else
    let overall_conf :=
      min (if 0 < bs_conf then (policy_conf + bs_conf) / 2 else policy_conf) 1
    { score := round3 overall_score
      label := score_label overall_score
      confidence := round3 overall_conf
      hawkish_matches := sortedDedup (p.2.2.1 ++ b.2.2.1)
      dovish_matches := sortedDedup (p.2.2.2 ++ b.2.2.2)
      snippet_count := 1
      policy_score := round3 policy_score
      policy_label := score_label policy_score
      balance_sheet_score := round3 bs_score
      balance_sheet_label := score_label bs_score }

/-- `classify_snippets_keyword`: aggregate keyword classification of a
snippet list (confidence-weighted averages per dimension). -/
def classify_snippets_keyword (snippets : List String) : ClassificationResult :=
  match snippets with
  | [] =>
    { score := 0, label := "Neutral", confidence := 0,
      hawkish_matches := [], dovish_matches := [], snippet_count := 0 }
  | _ :: _ =>
    let results := snippets.map classify_text_keyword
    let total_conf := (results.map (·.confidence)).sum
    let avg_score :=
      if total_conf = 0 then 0
      else (results.map (fun r => r.score * r.confidence)).sum / total_conf
    let avg_policy :=
      if total_conf = 0 then 0
      else (results.map (fun r => r.policy_score * r.confidence)).sum / total_conf
    let avg_bs :=
      if total_conf = 0 then 0
      else (results.map (fun r => r.balance_sheet_score * r.confidence)).sum / total_conf
    let all_hawkish := sortedDedup (results.flatMap (·.hawkish_matches))
    let all_dovish := sortedDedup (results.flatMap (·.dovish_matches))
    let avg_conf := total_conf / results.length
    { score := round3 avg_score
      label := score_label avg_score
      confidence := round3 (min avg_conf 1)
      hawkish_matches := all_hawkish
      dovish_matches := all_dovish
      snippet_count := snippets.length
      policy_score := round3 avg_policy
      policy_label := score_label avg_policy
      balance_sheet_score := round3 avg_bs
      balance_sheet_label := score_label avg_bs }

/-! ### Evidence extraction (`stance_classifier.py`) -/

/-- Fuel-indexed first-occurrence search, returning the index of the
first position where `needle` starts. -/
def findSubAux (needle : List Char) : Nat → Nat → List Char → Option Nat
  | 0, _, _ => none
  | _ + 1, i, [] => if needle.isEmpty then some i else none
  | fuel + 1, i, c :: rest =>
    if needle.isPrefixOf (c :: rest) then some i
    else findSubAux needle fuel (i + 1) rest

/-- Python `str.find`: index of the first occurrence, `none` for -1. -/
def findSub (needle hay : List Char) : Option Nat :=
  findSubAux needle (hay.length + 1) 0 hay

/-- Python `text.rfind(" ", 0, stop)`: index of the last space strictly
before `stop`, if any. -/
def rfindSpace (l : List Char) (stop : Nat) : Option Nat :=
  let seg := l.take stop
  match seg.reverse.findIdx? (fun c => c = ' ') with
  | none => none
  | some j => some (seg.length - 1 - j)

/-- Python `text.find(" ", start)`: index of the first space at
position `start` or later, if any. -/
def findSpaceFrom (l : List Char) (start : Nat) : Option Nat :=
  match (l.drop start).findIdx? (fun c => c = ' ') with
  | none => none
  | some j => some (start + j)

/-- `extract_quote`: a context window of `QUOTE_CONTEXT_CHARS` around
the first case-insensitive occurrence of `term`, snapped to word
boundaries, with ellipsis markers where clipped. -/
def extract_quote (text term : String) : String :=
  let l := text.data
  match findSub (term.data.map Char.toLower) (l.map Char.toLower) with
  | none => ""
  | some idx =>
    let start0 := idx - QUOTE_CONTEXT_CHARS / 2
    let end0 := min l.length (idx + term.length + QUOTE_CONTEXT_CHARS / 2)
    let start1 :=
      if 0 < start0 then
        match rfindSpace l start0 with
        | some sp => sp + 1
        | none => start0
      else start0
    let end1 :=
      if end0 < l.length then
        match findSpaceFrom l end0 with
        | some sp => sp
        | none => end0
      else end0
    let quote := trimWs ((l.take end1).drop start1)
    String.mk ((if 0 < start1 then "...".data else []) ++ quote ++
      (if end1 < l.length then "...".data else []))

/-- `_keyword_dimension`: balance-sheet if the term occurs in either
balance-sheet dictionary (case-insensitively), else policy. -/
def keyword_dimension (term : String) : String :=
  let t := term.data.map Char.toLower
  if (BS_HAWKISH_TERMS.map (fun p => p.1.data.map Char.toLower)).contains t
      || (BS_DOVISH_TERMS.map (fun p => p.1.data.map Char.toLower)).contains t
  then "balance_sheet" else "policy"

/-- One evidence record produced by `classify_text_with_evidence`. -/
structure EvidenceInfo where
  keyword : String
  direction : String
  dimension : String
  quote : String
deriving DecidableEq

/-- `classify_text_with_evidence_keyword`: keyword classification plus
evidence quotes for each matched term (hawkish first, then dovish;
terms whose quote extraction comes back empty are skipped). -/
def classify_text_with_evidence_keyword (text : String) :
    ClassificationResult × List EvidenceInfo :=
  let result := classify_text_keyword text
  let mk := fun (kw dir : String) =>
    let q := extract_quote text kw
    if q = "" then []
    else [EvidenceInfo.mk kw dir (keyword_dimension kw) q]
  (result,
    result.hawkish_matches.flatMap (fun kw => mk kw "hawkish") ++
    result.dovish_matches.flatMap (fun kw => mk kw "dovish"))

/-! ### Classifier registry and routing (`stance_classifier.py`)

A registered backend is a named triple of fallible capability
functions plus an enabled flag; `none` models a raised exception.  The
environment-gated semantic backends (Cerebras / Gemini / OpenAI) are
external collaborators: each is an opaque fallible function, gated by
whether its API key is configured. -/

/-- One entry of the `_CLASSIFIERS` registry. -/
structure ClassifierBackend where
  name : String
  classify_text_fn : String → Option ClassificationResult
  classify_text_with_evidence_fn :
    String → Option (ClassificationResult × List EvidenceInfo)
  classify_snippets_fn : List String → Option ClassificationResult
  enabled : Bool

/-- The process environment and the opaque semantic backends: a gate
bit per API key, and one fallible function per backend entrypoint. -/
structure SemanticEnv where
  cerebras_key : Bool
  gemini_key : Bool
  openai_key : Bool
  cerebras_text : String → Option ClassificationResult
  gemini_text : String → Option ClassificationResult
  openai_text : String → Option ClassificationResult
  cerebras_evidence : String → Option (ClassificationResult × List EvidenceInfo)
  gemini_evidence : String → Option (ClassificationResult × List EvidenceInfo)
  openai_evidence : String → Option (ClassificationResult × List EvidenceInfo)
  cerebras_snippets : List String → Option ClassificationResult
  gemini_snippets : List String → Option ClassificationResult
  openai_snippets : List String → Option ClassificationResult

/-- A registered backend whose three capability functions always raise
(model of an always-failing plugin, enabled). -/
def noneBackend : ClassifierBackend :=
  { name := "always-fails", classify_text_fn := fun _ => none,
    classify_text_with_evidence_fn := fun _ => none,
    classify_snippets_fn := fun _ => none, enabled := true }

/-- The environment with no API keys configured and all semantic
backends failing. -/
def emptyEnv : SemanticEnv :=
  { cerebras_key := false, gemini_key := false, openai_key := false,
    cerebras_text := fun _ => none, gemini_text := fun _ => none,
    openai_text := fun _ => none, cerebras_evidence := fun _ => none,
    gemini_evidence := fun _ => none, openai_evidence := fun _ => none,
    cerebras_snippets := fun _ => none, gemini_snippets := fun _ => none,
    openai_snippets := fun _ => none }

/-- The plugin loop shared by the three entrypoints: try each
registered backend in order, skipping disabled ones and ones that
raise (`none`). -/
def routePlugins {α β : Type} (sel : ClassifierBackend → α → Option β) :
    List ClassifierBackend → α → Option β
  | [], _ => none
  | b :: rest, x =>
    if b.enabled then
      match sel b x with
      | some r => some r
      | none => routePlugins sel rest x
    else routePlugins sel rest x

/-- `classify_text`: plugins, then gated semantic backends, then the
keyword fallback. -/
def classify_text (reg : List ClassifierBackend) (env : SemanticEnv)
    (text : String) : ClassificationResult :=
  match routePlugins (fun b => b.classify_text_fn) reg text with
  | some r => r
  | none =>
    match if env.cerebras_key then env.cerebras_text text else none with
    | some r => r
    | none =>
      match if env.gemini_key then env.gemini_text text else none with
      | some r => r
      | none =>
        match if env.openai_key then env.openai_text text else none with
        | some r => r
        | none => classify_text_keyword text

/-- `classify_text_with_evidence`: same routing, evidence-producing
entrypoint. -/
def classify_text_with_evidence (reg : List ClassifierBackend)
    (env : SemanticEnv) (text : String) :
    ClassificationResult × List EvidenceInfo :=
  match routePlugins (fun b => b.classify_text_with_evidence_fn) reg text with
  | some r => r
  | none =>
    match if env.cerebras_key then env.cerebras_evidence text else none with
    | some r => r
    | none =>
      match if env.gemini_key then env.gemini_evidence text else none with
      | some r => r
      | none =>
        match if env.openai_key then env.openai_evidence text else none with
        | some r => r
        | none => classify_text_with_evidence_keyword text

/-- `classify_snippets`: same routing, snippet-list entrypoint. -/
def classify_snippets (reg : List ClassifierBackend) (env : SemanticEnv)
    (snippets : List String) : ClassificationResult :=
  match routePlugins (fun b => b.classify_snippets_fn) reg snippets with
  | some r => r
  | none =>
    match if env.cerebras_key then env.cerebras_snippets snippets else none with
    | some r => r
    | none =>
      match if env.gemini_key then env.gemini_snippets snippets else none with
      | some r => r
      | none =>
        match if env.openai_key then env.openai_snippets snippets else none with
        | some r => r
        | none => classify_snippets_keyword snippets

/-! ### Meeting calendar (`meeting_calendar.py`) -/

/-- A Gregorian calendar date, as `datetime.date`. -/
structure PyDate where
  year : Nat
  month : Nat
  day : Nat
deriving DecidableEq

/-- Gregorian leap-year test. -/
def isLeapYear (y : Nat) : Bool :=
  y % 4 == 0 && (y % 100 != 0 || y % 400 == 0)

/-- Length of a month. -/
def daysInMonth (y m : Nat) : Nat :=
  if m = 2 then (if isLeapYear y then 29 else 28)
  else if m = 4 ∨ m = 6 ∨ m = 9 ∨ m = 11 then 30
  else 31

/-- Days in year `y` before the first of month `m`. -/
def daysBeforeMonth (y m : Nat) : Nat :=
  (List.range (m - 1)).foldl (fun acc i => acc + daysInMonth y (i + 1)) 0

/-- `datetime.date.toordinal`: day number of a date in the proleptic
Gregorian calendar, with 0001-01-01 as day 1. -/
def toOrdinal (d : PyDate) : Nat :=
  (d.year - 1) * 365 + (d.year - 1) / 4 - (d.year - 1) / 100 +
    (d.year - 1) / 400 + daysBeforeMonth d.year d.month + d.day

/-- `datetime.date.weekday`: 0 = Monday … 6 = Sunday. -/
def pyWeekday (d : PyDate) : Nat := (toOrdinal d - 1) % 7

/-- One FOMC meeting row. -/
structure FOMCMeeting where
  start_date : PyDate
  end_date : PyDate
  decision : Option String := none
  rate_upper : Option ℚ := none
  rate_lower : Option ℚ := none
  statement_note : String := ""
deriving DecidableEq

/-- The static `MEETINGS` calendar (2025–2026). -/
def MEETINGS : List FOMCMeeting := [
  { start_date := ⟨2025, 1, 28⟩, end_date := ⟨2025, 1, 29⟩,
    decision := some "hold", rate_upper := some 4.50, rate_lower := some 4.25,
    statement_note := "Held steady; noted inflation progress slowing" },
  { start_date := ⟨2025, 3, 18⟩, end_date := ⟨2025, 3, 19⟩,
    decision := some "hold", rate_upper := some 4.50, rate_lower := some 4.25,
    statement_note := "Maintained rates; watching tariff uncertainty" },
  { start_date := ⟨2025, 5, 6⟩, end_date := ⟨2025, 5, 7⟩,
    decision := some "hold", rate_upper := some 4.50, rate_lower := some 4.25,
    statement_note := "Held rates; labor market remains solid" },
  { start_date := ⟨2025, 6, 17⟩, end_date := ⟨2025, 6, 18⟩,
    decision := some "hold", rate_upper := some 4.50, rate_lower := some 4.25,
    statement_note := "No change; data-dependent approach emphasized" },
  { start_date := ⟨2025, 7, 29⟩, end_date := ⟨2025, 7, 30⟩,
    decision := some "hold", rate_upper := some 4.50, rate_lower := some 4.25,
    statement_note := "Held steady; inflation still above 2% target" },
  { start_date := ⟨2025, 9, 16⟩, end_date := ⟨2025, 9, 17⟩,
    decision := some "hold", rate_upper := some 4.50, rate_lower := some 4.25,
    statement_note := "Maintained rates; watching incoming data" },
  { start_date := ⟨2025, 10, 28⟩, end_date := ⟨2025, 10, 29⟩,
    decision := some "hold", rate_upper := some 4.50, rate_lower := some 4.25,
    statement_note := "No change; risks roughly balanced" },
  { start_date := ⟨2025, 12, 16⟩, end_date := ⟨2025, 12, 17⟩,
    decision := some "hold", rate_upper := some 4.50, rate_lower := some 4.25,
    statement_note := "Held rates; SEP unchanged from September" },
  { start_date := ⟨2026, 1, 27⟩, end_date := ⟨2026, 1, 28⟩,
    decision := some "hold", rate_upper := some 4.50, rate_lower := some 4.25,
    statement_note := "Maintained rates; watching policy uncertainty" },
  { start_date := ⟨2026, 3, 17⟩, end_date := ⟨2026, 3, 18⟩ },
  { start_date := ⟨2026, 5, 5⟩, end_date := ⟨2026, 5, 6⟩ },
  { start_date := ⟨2026, 6, 16⟩, end_date := ⟨2026, 6, 17⟩ },
  { start_date := ⟨2026, 7, 28⟩, end_date := ⟨2026, 7, 29⟩ },
  { start_date := ⟨2026, 9, 15⟩, end_date := ⟨2026, 9, 16⟩ },
  { start_date := ⟨2026, 10, 27⟩, end_date := ⟨2026, 10, 28⟩ },
  { start_date := ⟨2026, 12, 15⟩, end_date := ⟨2026, 12, 16⟩ }]

/-- The first calendar row (January 2025), the concrete meeting used to
check the blackout-window arithmetic. -/
def firstMeeting2025 : FOMCMeeting :=
  { start_date := ⟨2025, 1, 28⟩, end_date := ⟨2025, 1, 29⟩,
    decision := some "hold", rate_upper := some 4.50, rate_lower := some 4.25,
    statement_note := "Held steady; noted inflation progress slowing" }

/-- `_blackout_start`: the second Saturday before the meeting start
date, as an ordinal day number.  `days_to_saturday` is Python
`(weekday - 5) % 7`, and `or 7` sends 0 to 7. -/
def blackout_start (m : FOMCMeeting) : Nat :=
  let days_to_saturday := (pyWeekday m.start_date + 2) % 7
  let first_saturday_before :=
    toOrdinal m.start_date -
      (if days_to_saturday = 0 then 7 else days_to_saturday)
  first_saturday_before - 7

/-! ### Historical stance store (`historical_data.py`) -/

/-- One evidence item attached to a stored stance entry. -/
structure EvidenceItem where
  title : String
  url : String
  source_type : String
  keywords : List String
  quote : String
deriving DecidableEq

/-- A stored stance entry.  `date`, `score`, `label` and `source` are
always present; the dual-dimension fields are optional so that legacy
single-dimension records can be represented (backfill repairs them);
`evidence` is attached only when nonempty. -/
structure StanceEntry where
  date : String
  score : ℚ
  label : String
  source : String
  policy_score : Option ℚ := none
  policy_label : Option String := none
  balance_sheet_score : Option ℚ := none
  balance_sheet_label : Option String := none
  evidence : Option (List EvidenceItem) := none
deriving DecidableEq

/-- `_score_label` from `historical_data.py` (same thresholds as the
config helper, defined separately there). -/
def score_label_hist (score : ℚ) : String :=
  if score > 1.5 then "Hawkish"
  else if score < -1.5 then "Dovish"
  else "Neutral"

/-- `_backfill_entry`: give a legacy entry the dual-dimension fields
(policy defaults to the overall score, balance sheet to neutral 0). -/
def backfill_entry (e : StanceEntry) : StanceEntry :=
  let e1 :=
    if e.policy_score.isSome then e
    else { e with policy_score := some e.score,
                  policy_label := some (score_label_hist e.score) }
  if e1.balance_sheet_score.isSome then e1
  else { e1 with balance_sheet_score := some (0 : ℚ),
                 balance_sheet_label := some "Neutral" }

/-- Constructor for one seed entry (`source = "seed"`, all
dual-dimension fields present, no evidence). -/
def seedE (date : String) (score : ℚ) (label : String) (ps : ℚ)
    (pl : String) (bss : ℚ) (bsl : String) : StanceEntry :=
  { date := date, score := score, label := label, source := "seed",
    policy_score := some ps, policy_label := some pl,
    balance_sheet_score := some bss, balance_sheet_label := some bsl }

/-- The stance store: participant name → entry list, in key-insertion
order, exactly the JSON object layout of `stance_history.json`. -/
abbrev History := List (String × List StanceEntry)

/-- `SEED_DATA`: the static seed stance series. -/
def SEED_DATA : History := [
  ("Kevin M. Warsh", [
    seedE "2025-09-15" 2.75 "Hawkish" 2.75 "Hawkish" 2.50 "Hawkish",
    seedE "2025-10-15" 2.50 "Hawkish" 2.50 "Hawkish" 2.50 "Hawkish",
    seedE "2025-11-15" 2.75 "Hawkish" 2.75 "Hawkish" 2.25 "Hawkish",
    seedE "2025-12-15" 3.00 "Hawkish" 3.00 "Hawkish" 2.50 "Hawkish",
    seedE "2026-01-15" 2.75 "Hawkish" 2.75 "Hawkish" 2.50 "Hawkish"]),
  ("Jerome H. Powell", [
    seedE "2025-09-15" 0.50 "Neutral" 0.50 "Neutral" 0.25 "Neutral",
    seedE "2025-10-15" 0.25 "Neutral" 0.25 "Neutral" 0.25 "Neutral",
    seedE "2025-11-15" (-0.25) "Neutral" (-0.25) "Neutral" 0.00 "Neutral",
    seedE "2025-12-15" (-0.50) "Neutral" (-0.50) "Neutral" 0.00 "Neutral",
    seedE "2026-01-15" (-0.25) "Neutral" (-0.25) "Neutral" 0.00 "Neutral"]),
  ("Philip N. Jefferson", [
    seedE "2025-09-15" (-0.75) "Neutral" (-0.75) "Neutral" (-0.25) "Neutral",
    seedE "2025-10-15" (-0.50) "Neutral" (-0.50) "Neutral" (-0.25) "Neutral",
    seedE "2025-11-15" (-0.75) "Neutral" (-0.75) "Neutral" (-0.25) "Neutral",
    seedE "2025-12-15" (-1.00) "Neutral" (-1.00) "Neutral" (-0.25) "Neutral",
    seedE "2026-01-15" (-0.75) "Neutral" (-0.75) "Neutral" (-0.25) "Neutral"]),
  ("Michael S. Barr", [
    seedE "2025-09-15" (-1.25) "Neutral" (-1.25) "Neutral" (-0.50) "Neutral",
    seedE "2025-10-15" (-1.00) "Neutral" (-1.00) "Neutral" (-0.50) "Neutral",
    seedE "2025-11-15" (-1.25) "Neutral" (-1.25) "Neutral" (-0.50) "Neutral",
    seedE "2025-12-15" (-1.50) "Neutral" (-1.50) "Neutral" (-0.75) "Neutral",
    seedE "2026-01-15" (-1.25) "Neutral" (-1.25) "Neutral" (-0.50) "Neutral"]),
  ("Michelle W. Bowman", [
    seedE "2025-09-15" 3.00 "Hawkish" 3.25 "Hawkish" 2.00 "Hawkish",
    seedE "2025-10-15" 2.75 "Hawkish" 3.00 "Hawkish" 1.75 "Hawkish",
    seedE "2025-11-15" 2.50 "Hawkish" 2.75 "Hawkish" 1.75 "Hawkish",
    seedE "2025-12-15" 2.50 "Hawkish" 2.75 "Hawkish" 1.50 "Neutral",
    seedE "2026-01-15" 2.25 "Hawkish" 2.50 "Hawkish" 1.50 "Neutral"]),
  ("Christopher J. Waller", [
    seedE "2025-09-15" 2.50 "Hawkish" 2.75 "Hawkish" 1.75 "Hawkish",
    seedE "2025-10-15" 2.00 "Hawkish" 2.25 "Hawkish" 1.50 "Neutral",
    seedE "2025-11-15" 1.75 "Hawkish" 2.00 "Hawkish" 1.25 "Neutral",
    seedE "2025-12-15" 1.50 "Neutral" 1.75 "Hawkish" 1.00 "Neutral",
    seedE "2026-01-15" 1.75 "Hawkish" 2.00 "Hawkish" 1.25 "Neutral"]),
  ("Lisa D. Cook", [
    seedE "2025-09-15" (-1.50) "Neutral" (-1.50) "Neutral" (-0.75) "Neutral",
    seedE "2025-10-15" (-1.25) "Neutral" (-1.25) "Neutral" (-0.75) "Neutral",
    seedE "2025-11-15" (-1.50) "Neutral" (-1.50) "Neutral" (-0.75) "Neutral",
    seedE "2025-12-15" (-1.75) "Dovish" (-1.75) "Dovish" (-1.00) "Neutral",
    seedE "2026-01-15" (-1.50) "Neutral" (-1.50) "Neutral" (-0.75) "Neutral"]),
  ("Adriana D. Kugler", [
    seedE "2025-09-15" (-1.00) "Neutral" (-1.00) "Neutral" (-0.25) "Neutral",
    seedE "2025-10-15" (-0.75) "Neutral" (-0.75) "Neutral" (-0.25) "Neutral",
    seedE "2025-11-15" (-0.75) "Neutral" (-0.75) "Neutral" (-0.25) "Neutral",
    seedE "2025-12-15" (-1.00) "Neutral" (-1.00) "Neutral" (-0.25) "Neutral",
    seedE "2026-01-15" (-0.75) "Neutral" (-0.75) "Neutral" (-0.25) "Neutral"]),
  ("John C. Williams", [
    seedE "2025-09-15" (-0.25) "Neutral" (-0.50) "Neutral" 0.50 "Neutral",
    seedE "2025-10-15" (-0.50) "Neutral" (-0.75) "Neutral" 0.50 "Neutral",
    seedE "2025-11-15" (-0.50) "Neutral" (-0.75) "Neutral" 0.50 "Neutral",
    seedE "2025-12-15" (-0.75) "Neutral" (-1.00) "Neutral" 0.25 "Neutral",
    seedE "2026-01-15" (-0.50) "Neutral" (-0.75) "Neutral" 0.50 "Neutral"]),
  ("Patrick T. Harker", [
    seedE "2025-09-15" 0.75 "Neutral" 0.75 "Neutral" 0.25 "Neutral",
    seedE "2025-10-15" 0.50 "Neutral" 0.50 "Neutral" 0.25 "Neutral",
    seedE "2025-11-15" 0.25 "Neutral" 0.25 "Neutral" 0.25 "Neutral",
    seedE "2025-12-15" 0.25 "Neutral" 0.25 "Neutral" 0.25 "Neutral",
    seedE "2026-01-15" 0.50 "Neutral" 0.50 "Neutral" 0.25 "Neutral"]),
  ("Thomas I. Barkin", [
    seedE "2025-09-15" 1.00 "Neutral" 1.00 "Neutral" 0.50 "Neutral",
    seedE "2025-10-15" 0.75 "Neutral" 0.75 "Neutral" 0.50 "Neutral",
    seedE "2025-11-15" 0.75 "Neutral" 0.75 "Neutral" 0.50 "Neutral",
    seedE "2025-12-15" 0.50 "Neutral" 0.50 "Neutral" 0.50 "Neutral",
    seedE "2026-01-15" 0.75 "Neutral" 0.75 "Neutral" 0.50 "Neutral"]),
  ("Raphael W. Bostic", [
    seedE "2025-09-15" (-0.75) "Neutral" (-0.75) "Neutral" (-0.25) "Neutral",
    seedE "2025-10-15" (-0.50) "Neutral" (-0.50) "Neutral" (-0.25) "Neutral",
    seedE "2025-11-15" (-0.75) "Neutral" (-0.75) "Neutral" (-0.25) "Neutral",
    seedE "2025-12-15" (-1.00) "Neutral" (-1.00) "Neutral" (-0.25) "Neutral",
    seedE "2026-01-15" (-0.75) "Neutral" (-0.75) "Neutral" (-0.25) "Neutral"]),
  ("Mary C. Daly", [
    seedE "2025-09-15" (-1.00) "Neutral" (-1.00) "Neutral" (-0.50) "Neutral",
    seedE "2025-10-15" (-0.75) "Neutral" (-0.75) "Neutral" (-0.50) "Neutral",
    seedE "2025-11-15" (-1.00) "Neutral" (-1.00) "Neutral" (-0.50) "Neutral",
    seedE "2025-12-15" (-1.25) "Neutral" (-1.25) "Neutral" (-0.50) "Neutral",
    seedE "2026-01-15" (-1.00) "Neutral" (-1.00) "Neutral" (-0.50) "Neutral"]),
  ("Susan M. Collins", [
    seedE "2025-09-15" 0.50 "Neutral" 0.50 "Neutral" 0.00 "Neutral",
    seedE "2025-10-15" 0.25 "Neutral" 0.25 "Neutral" 0.00 "Neutral",
    seedE "2025-11-15" 0.25 "Neutral" 0.25 "Neutral" 0.00 "Neutral",
    seedE "2025-12-15" 0.00 "Neutral" 0.00 "Neutral" 0.00 "Neutral",
    seedE "2026-01-15" 0.25 "Neutral" 0.25 "Neutral" 0.00 "Neutral"]),
  ("Beth M. Hammack", [
    seedE "2025-09-15" 1.25 "Neutral" 1.25 "Neutral" 0.75 "Neutral",
    seedE "2025-10-15" 1.00 "Neutral" 1.00 "Neutral" 0.75 "Neutral",
    seedE "2025-11-15" 1.00 "Neutral" 1.00 "Neutral" 0.75 "Neutral",
    seedE "2025-12-15" 1.25 "Neutral" 1.25 "Neutral" 0.75 "Neutral",
    seedE "2026-01-15" 1.00 "Neutral" 1.00 "Neutral" 0.75 "Neutral"]),
  ("Austan D. Goolsbee", [
    seedE "2025-09-15" (-2.00) "Dovish" (-2.25) "Dovish" (-1.00) "Neutral",
    seedE "2025-10-15" (-1.75) "Dovish" (-2.00) "Dovish" (-1.00) "Neutral",
    seedE "2025-11-15" (-1.75) "Dovish" (-2.00) "Dovish" (-0.75) "Neutral",
    seedE "2025-12-15" (-2.00) "Dovish" (-2.25) "Dovish" (-1.00) "Neutral",
    seedE "2026-01-15" (-1.75) "Dovish" (-2.00) "Dovish" (-1.00) "Neutral"]),
  ("Alberto G. Musalem", [
    seedE "2025-09-15" 1.50 "Neutral" 1.50 "Neutral" 0.75 "Neutral",
    seedE "2025-10-15" 1.25 "Neutral" 1.25 "Neutral" 0.75 "Neutral",
    seedE "2025-11-15" 1.25 "Neutral" 1.25 "Neutral" 0.75 "Neutral",
    seedE "2025-12-15" 1.00 "Neutral" 1.00 "Neutral" 0.50 "Neutral",
    seedE "2026-01-15" 1.25 "Neutral" 1.25 "Neutral" 0.75 "Neutral"]),
  ("Jeffrey R. Schmid", [
    seedE "2025-09-15" 2.00 "Hawkish" 2.00 "Hawkish" 1.25 "Neutral",
    seedE "2025-10-15" 1.75 "Hawkish" 1.75 "Hawkish" 1.25 "Neutral",
    seedE "2025-11-15" 1.75 "Hawkish" 1.75 "Hawkish" 1.25 "Neutral",
    seedE "2025-12-15" 1.50 "Neutral" 1.50 "Neutral" 1.00 "Neutral",
    seedE "2026-01-15" 1.75 "Hawkish" 1.75 "Hawkish" 1.25 "Neutral"]),
  ("Lorie K. Logan", [
    seedE "2025-09-15" 2.25 "Hawkish" 2.50 "Hawkish" (-0.75) "Neutral",
    seedE "2025-10-15" 2.00 "Hawkish" 2.25 "Hawkish" (-1.00) "Neutral",
    seedE "2025-11-15" 1.75 "Hawkish" 2.00 "Hawkish" (-1.25) "Neutral",
    seedE "2025-12-15" 1.75 "Hawkish" 2.25 "Hawkish" (-1.50) "Neutral",
    seedE "2026-01-15" 2.00 "Hawkish" 2.25 "Hawkish" (-1.25) "Neutral"]),
  ("Neel Kashkari", [
    seedE "2025-09-15" (-1.75) "Dovish" (-1.75) "Dovish" (-1.00) "Neutral",
    seedE "2025-10-15" (-1.50) "Neutral" (-1.50) "Neutral" (-1.00) "Neutral",
    seedE "2025-11-15" (-1.50) "Neutral" (-1.50) "Neutral" (-0.75) "Neutral",
    seedE "2025-12-15" (-1.75) "Dovish" (-1.75) "Dovish" (-1.25) "Neutral",
    seedE "2026-01-15" (-1.50) "Neutral" (-1.50) "Neutral" (-1.00) "Neutral"])]

/-- Python `dict` lookup on the association-list model. -/
def lookupH (h : History) (n : String) : Option (List StanceEntry) :=
  match h with
  | [] => none
  | (k, v) :: rest => if k = n then some v else lookupH rest n

/-- Python `dict` assignment: replace the value in place when the key
exists, else append the new key at the end. -/
def dictSet (h : History) (n : String) (v : List StanceEntry) : History :=
  match h with
  | [] => [(n, v)]
  | (k, w) :: rest =>
    if k = n then (k, v) :: rest else (k, w) :: dictSet rest n v

/-- `history.get(name, [])`. -/
def entriesFor (h : History) (n : String) : List StanceEntry :=
  (lookupH h n).getD []

/-- The key sequence of a store. -/
def keysOf (h : History) : List String := h.map (·.1)

/-- Stable ascending insertion by date: a later element with an equal
date goes after the earlier ones, matching Python stable sort. -/
def insortEntry (e : StanceEntry) : List StanceEntry → List StanceEntry
  | [] => [e]
  | x :: xs =>
    if strLe x.date e.date then x :: insortEntry e xs else e :: x :: xs

/-- `list.sort(key=lambda e: e["date"])`: stable sort ascending by
date (insertion sort, which is stable). -/
def sortEntries (l : List StanceEntry) : List StanceEntry :=
  l.foldl (fun acc e => insortEntry e acc) []

/-- The overlay step of `load_history` for one persisted key: ensure
the key exists, then append the persisted entries whose date is not
already present. -/
def overlayOne (h : History) (nv : String × List StanceEntry) : History :=
  let h1 := if (lookupH h nv.1).isSome then h else dictSet h nv.1 []
  let cur := entriesFor h1 nv.1
  let existing_dates := cur.map (·.date)
  dictSet h1 nv.1
    (cur ++ nv.2.filter (fun e => !(existing_dates.contains e.date)))

/-- Overlay every persisted key, in file order. -/
def overlayAll (h : History) (persisted : History) : History :=
  persisted.foldl overlayOne h

/-- `load_history`: seed data, overlaid with the persisted store, then
backfilled and date-sorted per participant. -/
def load_history (persisted : History) : History :=
  (overlayAll SEED_DATA persisted).map
    (fun kv => (kv.1, sortEntries (kv.2.map backfill_entry)))

/-- `save_history`: the persisted store becomes exactly the written
value (the function writes the entire store). -/
def save_history (h : History) : History := h

/-- Index of the last entry with the given date, mirroring
`{e["date"]: i for i, e in enumerate(entries)}` (later indices win). -/
def lastIdxOfDate (ds : List String) (d : String) : Option Nat :=
  match ds with
  | [] => none
  | d0 :: rest =>
    match lastIdxOfDate rest d with
    | some i => some (i + 1)
    | none => if d0 = d then some 0 else none

/-- The in-place-replace-or-append-and-sort step of `add_stance`:
`history[name][existing_dates[date]] = entry` when the date exists
(`existing_dates` keeps the last index per date), else append and
re-sort. -/
def upsertList (entry : StanceEntry) (date : String)
    (cur : List StanceEntry) : List StanceEntry :=
  match lastIdxOfDate (cur.map (·.date)) date with
  | some i => cur.set i entry
  | none => sortEntries (cur ++ [entry])

/-- The fully defaulted entry built by `add_stance` from its
arguments. -/
def mkStanceEntry (score : ℚ) (label : String) (date : String)
    (source : String) (evidence : Option (List EvidenceItem))
    (policy_score : Option ℚ) (policy_label : Option String)
    (balance_sheet_score : Option ℚ) (balance_sheet_label : Option String) :
    StanceEntry :=
  let ps := policy_score.getD score
  let pl := policy_label.getD (score_label_hist ps)
  let bss := balance_sheet_score.getD 0
  let bsl := balance_sheet_label.getD (score_label_hist bss)
  { date := date, score := round3 score, label := label, source := source,
    policy_score := some (round3 ps), policy_label := some pl,
    balance_sheet_score := some (round3 bss),
    balance_sheet_label := some bsl,
    evidence := match evidence with
                | some (x :: xs) => some (x :: xs)
                | _ => none }

/-- `if name not in history: history[name] = []`. -/
def ensureKey (h : History) (n : String) : History :=
  if (lookupH h n).isSome then h else dictSet h n []

/-- `add_stance`: load the merged store, default the dual-dimension
fields, round scores to 3 decimals, replace the entry at the same
(name, date) key in place or append-and-sort, and persist the whole
store.  The returned value is the new persisted store. -/
def add_stance (name : String) (score : ℚ) (label : String) (date : String)
    (source : String) (evidence : Option (List EvidenceItem))
    (policy_score : Option ℚ) (policy_label : Option String)
    (balance_sheet_score : Option ℚ) (balance_sheet_label : Option String)
    (persisted : History) : History :=
  let history := ensureKey (load_history persisted) name
  let entry := mkStanceEntry score label date source evidence
    policy_score policy_label balance_sheet_score balance_sheet_label
  let cur := entriesFor history name
  save_history (dictSet history name (upsertList entry date cur))

/-- `get_latest_stance`: the backfilled last (by date) entry for a
participant, if any history exists. -/
def get_latest_stance (persisted : History) (name : String) :
    Option StanceEntry :=
  (entriesFor (load_history persisted) name).getLast?.map backfill_entry

/-- The entries of a list carrying a given date. -/
def dFilter (d : String) (l : List StanceEntry) : List StanceEntry :=
  l.filter (fun e => e.date == d)

/-- The stored entries for a (participant, date) key, used to state
the round-trip and idempotence claims. -/
def entriesAt (h : History) (name date : String) : List StanceEntry :=
  dFilter date (entriesFor h name)

/-- Sortedness by date in the store order. -/
def SortedD (l : List StanceEntry) : Prop :=
  l.Pairwise (fun a b => strLe a.date b.date = true)

/-- An entry that already carries both dual-dimension scores (backfill
is the identity on such entries). -/
def filledB (e : StanceEntry) : Bool :=
  e.policy_score.isSome && e.balance_sheet_score.isSome

/-- The per-participant value produced by `load_history`: seed floor
plus date-filtered persisted overlay, backfilled and sorted. -/
def mergedList (s q : List StanceEntry) : List StanceEntry :=
  sortEntries
    ((s ++ q.filter (fun e => !((s.map (·.date)).contains e.date))).map
      backfill_entry)

/-- The store produced by upserting a live Powell stance dated
2025-12-15 (a date also present in the seed series) into an empty
persisted store — the concrete input of the round-trip counterexample. -/
def powellUpsert : History :=
  add_stance "Jerome H. Powell" 4 "Hawkish" "2025-12-15" "live" none
    none (some "Hawkish") none (some "Neutral") []

/-! ### Participant roster (`participants.py`) -/

/-- One FOMC participant. -/
structure Participant where
  name : String
  title : String
  institution : String
  is_voter_2026 : Bool
  is_governor : Bool
  historical_lean : ℚ
  historical_balance_sheet_lean : ℚ := 0
deriving DecidableEq

/-- The static `PARTICIPANTS` roster. -/
def PARTICIPANTS : List Participant := [
  { name := "Kevin M. Warsh", title := "Nominated Fed Chair",
    institution := "Incoming", is_voter_2026 := false, is_governor := false,
    historical_lean := 2.75, historical_balance_sheet_lean := 2.50 },
  { name := "Jerome H. Powell", title := "Chair",
    institution := "Board of Governors", is_voter_2026 := true,
    is_governor := true, historical_lean := 0.25,
    historical_balance_sheet_lean := 0.25 },
  { name := "Philip N. Jefferson", title := "Vice Chair",
    institution := "Board of Governors", is_voter_2026 := true,
    is_governor := true, historical_lean := -0.50,
    historical_balance_sheet_lean := -0.25 },
  { name := "Michael S. Barr", title := "Vice Chair for Supervision",
    institution := "Board of Governors", is_voter_2026 := true,
    is_governor := true, historical_lean := -1.00,
    historical_balance_sheet_lean := -0.50 },
  { name := "Michelle W. Bowman", title := "Governor",
    institution := "Board of Governors", is_voter_2026 := true,
    is_governor := true, historical_lean := 2.75,
    historical_balance_sheet_lean := 1.75 },
  { name := "Christopher J. Waller", title := "Governor",
    institution := "Board of Governors", is_voter_2026 := true,
    is_governor := true, historical_lean := 2.25,
    historical_balance_sheet_lean := 1.50 },
  { name := "Lisa D. Cook", title := "Governor",
    institution := "Board of Governors", is_voter_2026 := true,
    is_governor := true, historical_lean := -1.25,
    historical_balance_sheet_lean := -0.75 },
  { name := "Adriana D. Kugler", title := "Governor",
    institution := "Board of Governors", is_voter_2026 := true,
    is_governor := true, historical_lean := -0.75,
    historical_balance_sheet_lean := -0.25 },
  { name := "John C. Williams", title := "President",
    institution := "FRB New York", is_voter_2026 := true,
    is_governor := false, historical_lean := -0.25,
    historical_balance_sheet_lean := 0.50 },
  { name := "Patrick T. Harker", title := "President",
    institution := "FRB Philadelphia", is_voter_2026 := true,
    is_governor := false, historical_lean := 0.50,
    historical_balance_sheet_lean := 0.25 },
  { name := "Thomas I. Barkin", title := "President",
    institution := "FRB Richmond", is_voter_2026 := true,
    is_governor := false, historical_lean := 0.75,
    historical_balance_sheet_lean := 0.50 },
  { name := "Raphael W. Bostic", title := "President",
    institution := "FRB Atlanta", is_voter_2026 := true,
    is_governor := false, historical_lean := -0.50,
    historical_balance_sheet_lean := -0.25 },
  { name := "Mary C. Daly", title := "President",
    institution := "FRB San Francisco", is_voter_2026 := true,
    is_governor := false, historical_lean := -0.75,
    historical_balance_sheet_lean := -0.50 },
  { name := "Susan M. Collins", title := "President",
    institution := "FRB Boston", is_voter_2026 := false,
    is_governor := false, historical_lean := 0.25,
    historical_balance_sheet_lean := 0.00 },
  { name := "Beth M. Hammack", title := "President",
    institution := "FRB Cleveland", is_voter_2026 := false,
    is_governor := false, historical_lean := 1.00,
    historical_balance_sheet_lean := 0.75 },
  { name := "Austan D. Goolsbee", title := "President",
    institution := "FRB Chicago", is_voter_2026 := false,
    is_governor := false, historical_lean := -1.75,
    historical_balance_sheet_lean := -1.00 },
  { name := "Alberto G. Musalem", title := "President",
    institution := "FRB St. Louis", is_voter_2026 := false,
    is_governor := false, historical_lean := 1.25,
    historical_balance_sheet_lean := 0.75 },
  { name := "Jeffrey R. Schmid", title := "President",
    institution := "FRB Kansas City", is_voter_2026 := false,
    is_governor := false, historical_lean := 1.75,
    historical_balance_sheet_lean := 1.25 },
  { name := "Lorie K. Logan", title := "President",
    institution := "FRB Dallas", is_voter_2026 := false,
    is_governor := false, historical_lean := 2.00,
    historical_balance_sheet_lean := -1.00 },
  { name := "Neel Kashkari", title := "President",
    institution := "FRB Minneapolis", is_voter_2026 := false,
    is_governor := false, historical_lean := -1.50,
    historical_balance_sheet_lean := -1.00 }]

/-! ### Weighted policy signal (`policy_signal.py`) -/

/-- `_participant_weight`: role-based influence weight from the
`ROLE_WEIGHTS` table. -/
def participant_weight (p : Participant) : ℚ :=
  if p.title = "Chair" then 3.0
  else if p.title = "Vice Chair" then 1.5
  else if p.title = "Vice Chair for Supervision" then 1.25
  else if p.is_governor then 1.0
  else if p.is_voter_2026 then 1.0
  else 0.25

/-- The `score_key` argument of the signal functions (the three keys
actually passed by callers). -/
inductive ScoreKey
  | score
  | policy_score
  | balance_sheet_score
deriving DecidableEq

/-- `latest.get(score_key, latest.get("score", 0))` on a stance entry:
a missing dual-dimension field falls back to the overall score. -/
def entryScoreGet (e : StanceEntry) : ScoreKey → ℚ
  | .score => e.score
  | .policy_score => e.policy_score.getD e.score
  | .balance_sheet_score => e.balance_sheet_score.getD e.score

/-- The per-participant score resolution of `compute_weighted_signal`:
the latest stored stance when one exists, else the static historical
lean for the requested dimension. -/
def resolveScore (latest : String → Option StanceEntry) (key : ScoreKey)
    (p : Participant) : ℚ :=
  match latest p.name with
  | some e => entryScoreGet e key
  | none =>
    match key with
    | .score => p.historical_lean
    | .policy_score => p.historical_lean
    | .balance_sheet_score => p.historical_balance_sheet_lean

/-- One row of `participant_contributions`. -/
structure Contribution where
  name : String
  score : ℚ
  weight : ℚ
  weighted_contribution : ℚ
  voter : Bool
  role : String
deriving DecidableEq

/-- The result record of `compute_weighted_signal`. -/
structure WeightedSignal where
  weighted_score : ℚ
  simple_average : ℚ
  voter_average : ℚ
  participant_contributions : List Contribution
  total_weight : ℚ
deriving DecidableEq

/-- Stable insertion for the descending sort of contributions
(`sorted(..., reverse=True)`): an equal contribution goes after the
earlier ones. -/
def insortContrib (c : Contribution) : List Contribution → List Contribution
  | [] => [c]
  | x :: xs =>
    if c.weighted_contribution ≤ x.weighted_contribution then
      x :: insortContrib c xs
    else c :: x :: xs

/-- `sorted(contributions, key=weighted_contribution, reverse=True)`. -/
def sortContribs (l : List Contribution) : List Contribution :=
  l.foldl (fun acc c => insortContrib c acc) []

/-- The accumulation loop of `compute_weighted_signal`, parametric in
the roster and in the latest-stance resolution (the source iterates
`PARTICIPANTS` and resolves via `get_latest_stance`; the single pass
accumulates exactly these sums). -/
def compute_weighted_signal_over (roster : List Participant)
    (latest : String → Option StanceEntry) (key : ScoreKey) : WeightedSignal :=
  let weighted_sum :=
    (roster.map (fun p => resolveScore latest key p * participant_weight p)).sum
  let total_weight := (roster.map participant_weight).sum
  let simple_sum := (roster.map (resolveScore latest key)).sum
  let count := roster.length
  let voters := roster.filter (·.is_voter_2026)
  let voter_sum := (voters.map (resolveScore latest key)).sum
  let voter_count := voters.length
  let contributions := roster.map (fun p =>
    { name := p.name, score := resolveScore latest key p,
      weight := participant_weight p,
      weighted_contribution := resolveScore latest key p * participant_weight p,
      voter := p.is_voter_2026, role := p.title : Contribution })
  { weighted_score :=
      round3 (if total_weight ≠ 0 then weighted_sum / total_weight else 0)
    simple_average := round3 (if count ≠ 0 then simple_sum / count else 0)
    voter_average :=
      round3 (if voter_count ≠ 0 then voter_sum / voter_count else 0)
    participant_contributions := sortContribs contributions
    total_weight := total_weight }

/-- `compute_weighted_signal` proper: the engine over the static
roster, resolving stances from the persisted store. -/
def compute_weighted_signal (persisted : History) (key : ScoreKey) :
    WeightedSignal :=
  compute_weighted_signal_over PARTICIPANTS (get_latest_stance persisted) key

/-! ### Implied rate action (`policy_signal.py`) -/

/-- One row of the `_ACTION_THRESHOLDS` table. -/
structure ActionThreshold where
  min_s : ℚ
  max_s : ℚ
  action_label : String
  direction : String
  magnitude_bp : Nat
deriving DecidableEq

/-- The ordered `_ACTION_THRESHOLDS` table. -/
def ACTION_THRESHOLDS : List ActionThreshold := [
  ⟨-5.0, -3.5, "Cut 50bp", "easing", 50⟩,
  ⟨-3.5, -2.0, "Cut 25bp", "easing", 25⟩,
  ⟨-2.0, -0.5, "Lean Cut", "easing", 25⟩,
  ⟨-0.5, 0.5, "Hold", "neutral", 0⟩,
  ⟨0.5, 2.0, "Lean Hike", "tightening", 25⟩,
  ⟨2.0, 3.5, "Hike 25bp", "tightening", 25⟩,
  ⟨3.5, 5.0, "Hike 50bp", "tightening", 50⟩]

/-- The result record of `implied_rate_action`. -/
structure RateAction where
  action : String
  direction : String
  magnitude_bp : Nat
  confidence : String
  projected_rate : Option (ℚ × ℚ)
deriving DecidableEq

/-- The scan loop of `implied_rate_action`: the first row whose
half-open interval contains the score. -/
def scanThresholds : List ActionThreshold → ℚ → Option (String × String × Nat)
  | [], _ => none
  | r :: rest, ws =>
    if r.min_s ≤ ws ∧ ws < r.max_s then
      some (r.action_label, r.direction, r.magnitude_bp)
    else scanThresholds rest ws

/-- `implied_rate_action`.  The current target range is the
calendar-dependent `get_current_rate()` value, passed here as an
argument. -/
def implied_rate_action (current_rate : Option (ℚ × ℚ))
    (weighted_score : ℚ) : RateAction :=
  let base :=
    match scanThresholds ACTION_THRESHOLDS weighted_score with
    | some t => t
    | none =>
      if weighted_score ≥ 3.5 then ("Hike 50bp", "tightening", 50)
      else ("Hold", "neutral", 0)
  let confidence :=
    if |weighted_score| < 0.5 then "high"
    else if |weighted_score| < 1.0 then "moderate"
    else if |weighted_score| < 2.0 then "moderate"
    else "high"
  let projected_rate :=
    match current_rate with
    | none => none
    | some r =>
      if 0 < base.2.2 then
        let delta : ℚ := (base.2.2 : ℚ) / 100
        if base.2.1 = "easing" then
          some (round2 (r.1 - delta), round2 (r.2 - delta))
        else
          some (round2 (r.1 + delta), round2 (r.2 + delta))
      else none
  { action := base.1, direction := base.2.1, magnitude_bp := base.2.2,
    confidence := confidence, projected_rate := projected_rate }

/-! ## Lemmas

### The code-point order -/

theorem charListLe_refl (l : List Char) : charListLe l l = true := by
  induction l with
  | nil => rfl
  | cons a as ih =>
    simp only [charListLe, if_neg (lt_irrefl a)]
    exact ih

theorem charListLe_total (l m : List Char) :
    charListLe l m = true ∨ charListLe m l = true := by
  induction l generalizing m with
  | nil => exact Or.inl rfl
  | cons a as ih =>
    cases m with
    | nil => exact Or.inr rfl
    | cons b bs =>
      rcases lt_trichotomy a b with h | h | h
      · left; simp [charListLe, h]
      · subst h
        rcases ih bs with h2 | h2
        · left; simp [charListLe, if_neg (lt_irrefl a), h2]
        · right; simp [charListLe, if_neg (lt_irrefl a), h2]
      · right; simp [charListLe, h]

theorem charListLe_trans {l m k : List Char} (h1 : charListLe l m = true)
    (h2 : charListLe m k = true) : charListLe l k = true := by
  induction l generalizing m k with
  | nil => rfl
  | cons a as ih =>
    cases m with
    | nil => simp [charListLe] at h1
    | cons b bs =>
      cases k with
      | nil => simp [charListLe] at h2
      | cons c cs =>
        simp only [charListLe] at h1 h2 ⊢
        rcases lt_trichotomy a b with hab | hab | hab
        · rcases lt_trichotomy b c with hbc | hbc | hbc
          · rw [if_pos (lt_trans hab hbc)]
          · subst hbc; rw [if_pos hab]
          · rw [if_neg (fun h => absurd (lt_trans h hbc) (lt_irrefl b)),
              if_pos hbc] at h2
            exact absurd h2 (by simp)
        · subst hab
          rcases lt_trichotomy a c with hbc | hbc | hbc
          · rw [if_pos hbc]
          · subst hbc
            rw [if_neg (lt_irrefl a), if_neg (lt_irrefl a)] at h1 h2 ⊢
            exact ih h1 h2
          · rw [if_neg (by exact fun h => absurd (lt_trans h hbc) (lt_irrefl a)),
              if_pos hbc] at h2
            exact absurd h2 (by simp)
        · rw [if_neg (fun h => absurd (lt_trans h hab) (lt_irrefl a)),
            if_pos hab] at h1
          exact absurd h1 (by simp)

theorem charListLe_antisymm {l m : List Char} (h1 : charListLe l m = true)
    (h2 : charListLe m l = true) : l = m := by
  induction l generalizing m with
  | nil =>
    cases m with
    | nil => rfl
    | cons b bs => simp [charListLe] at h2
  | cons a as ih =>
    cases m with
    | nil => simp [charListLe] at h1
    | cons b bs =>
      simp only [charListLe] at h1 h2
      rcases lt_trichotomy a b with hab | hab | hab
      · rw [if_neg (fun h => absurd (lt_trans h hab) (lt_irrefl b)),
          if_pos hab] at h2
        exact absurd h2 (by simp)
      · subst hab
        rw [if_neg (lt_irrefl a), if_neg (lt_irrefl a)] at h1 h2
        rw [ih h1 h2]
      · rw [if_neg (fun h => absurd (lt_trans h hab) (lt_irrefl a)),
          if_pos hab] at h1
        exact absurd h1 (by simp)

theorem strLe_refl (a : String) : strLe a a = true := charListLe_refl _

theorem strLe_total (a b : String) : strLe a b = true ∨ strLe b a = true :=
  charListLe_total _ _

theorem strLe_trans {a b c : String} (h1 : strLe a b = true)
    (h2 : strLe b c = true) : strLe a c = true :=
  charListLe_trans h1 h2

theorem strLe_antisymm {a b : String} (h1 : strLe a b = true)
    (h2 : strLe b a = true) : a = b := by
  have h := charListLe_antisymm h1 h2
  cases a; cases b; exact congrArg String.mk h

/-! ### Date-filter toolkit -/

theorem dFilter_nil (d : String) : dFilter d [] = [] := rfl

theorem dFilter_cons (d : String) (e : StanceEntry) (l : List StanceEntry) :
    dFilter d (e :: l) =
      if e.date = d then e :: dFilter d l else dFilter d l := by
  simp only [dFilter, List.filter_cons]
  by_cases h : e.date = d
  · simp [h]
  · simp [h]

theorem dFilter_append (d : String) (l m : List StanceEntry) :
    dFilter d (l ++ m) = dFilter d l ++ dFilter d m := by
  simp [dFilter, List.filter_append]

theorem mem_of_mem_dFilter {d : String} {e : StanceEntry}
    {l : List StanceEntry} (h : e ∈ dFilter d l) : e ∈ l :=
  List.mem_of_mem_filter h

theorem date_of_mem_dFilter {d : String} {e : StanceEntry}
    {l : List StanceEntry} (h : e ∈ dFilter d l) : e.date = d := by
  have := List.of_mem_filter h
  simpa using this

theorem mem_dFilter_self {e : StanceEntry} {l : List StanceEntry}
    (h : e ∈ l) : e ∈ dFilter e.date l := by
  exact List.mem_filter.2 ⟨h, by simp⟩

theorem dFilter_eq_nil_of (d : String) {l : List StanceEntry}
    (h : ∀ e ∈ l, e.date ≠ d) : dFilter d l = [] := by
  apply List.filter_eq_nil_iff.2
  intro a ha
  simpa using h a ha

/-! ### Stable insertion sort by date -/

theorem mem_insort {a e : StanceEntry} :
    ∀ {l : List StanceEntry}, a ∈ insortEntry e l ↔ a = e ∨ a ∈ l
  | [] => by simp [insortEntry]
  | x :: xs => by
    simp only [insortEntry]
    by_cases h : strLe x.date e.date = true
    · rw [if_pos h]
      rw [List.mem_cons, List.mem_cons, @mem_insort a e xs]
      tauto
    · rw [if_neg h]
      simp [List.mem_cons]

theorem insort_sorted (e : StanceEntry) :
    ∀ {l : List StanceEntry}, SortedD l → SortedD (insortEntry e l)
  | [], _ => List.pairwise_singleton _ _
  | x :: xs, h => by
    rcases List.pairwise_cons.1 h with ⟨hx, hxs⟩
    simp only [insortEntry]
    by_cases hle : strLe x.date e.date = true
    · rw [if_pos hle]
      apply List.pairwise_cons.2
      refine ⟨?_, insort_sorted e hxs⟩
      intro y hy
      rcases mem_insort.1 hy with rfl | hy
      · exact hle
      · exact hx y hy
    · rw [if_neg hle]
      have hel : strLe e.date x.date = true := by
        rcases strLe_total x.date e.date with h1 | h1
        · exact absurd h1 hle
        · exact h1
      apply List.pairwise_cons.2
      refine ⟨?_, h⟩
      intro y hy
      rcases List.mem_cons.1 hy with rfl | hy
      · exact hel
      · exact strLe_trans hel (hx y hy)

theorem dFilter_insort (d : String) (e : StanceEntry) :
    ∀ {l : List StanceEntry}, SortedD l →
      dFilter d (insortEntry e l) =
        if e.date = d then dFilter d l ++ [e] else dFilter d l
  | [], _ => by
    simp only [insortEntry]
    rw [dFilter_cons]
    by_cases h : e.date = d
    · simp [h, dFilter_nil]
    · simp [h, dFilter_nil]
  | x :: xs, h => by
    rcases List.pairwise_cons.1 h with ⟨hx, hxs⟩
    simp only [insortEntry]
    by_cases hle : strLe x.date e.date = true
    · rw [if_pos hle, dFilter_cons, dFilter_insort d e hxs, dFilter_cons]
      by_cases hxd : x.date = d
      · by_cases hed : e.date = d
        · simp [hxd, hed]
        · simp [hxd, hed]
      · by_cases hed : e.date = d
        · simp [hxd, hed]
        · simp [hxd, hed]
    · rw [if_neg hle, dFilter_cons]
      by_cases hed : e.date = d
      · rw [if_pos hed]
        have hnil : dFilter d (x :: xs) = [] := by
          apply dFilter_eq_nil_of
          intro y hy hyd
          have hyde : y.date = e.date := by rw [hyd, hed]
          rcases List.mem_cons.1 hy with rfl | hy2
          · exact hle (by rw [hyde]; exact strLe_refl e.date)
          · have hxle := hx y hy2
            rw [hyde] at hxle
            exact hle hxle
        rw [hnil, if_pos hed]
        rfl
      · rw [if_neg hed, if_neg hed]

theorem foldl_insort_sorted :
    ∀ (xs : List StanceEntry) (acc : List StanceEntry), SortedD acc →
      SortedD (xs.foldl (fun a e => insortEntry e a) acc)
  | [], _, h => h
  | x :: xs, acc, h =>
    foldl_insort_sorted xs (insortEntry x acc) (insort_sorted x h)

theorem foldl_insort_filter (d : String) :
    ∀ (xs : List StanceEntry) (acc : List StanceEntry), SortedD acc →
      dFilter d (xs.foldl (fun a e => insortEntry e a) acc) =
        dFilter d acc ++ dFilter d xs
  | [], acc, _ => by simp [dFilter_nil]
  | x :: xs, acc, h => by
    rw [List.foldl_cons,
      foldl_insort_filter d xs (insortEntry x acc) (insort_sorted x h),
      dFilter_insort d x h, dFilter_cons]
    by_cases hxd : x.date = d
    · simp [hxd]
    · simp [hxd]

theorem mem_foldl_insort {a : StanceEntry} :
    ∀ {xs acc : List StanceEntry},
      a ∈ xs.foldl (fun ac e => insortEntry e ac) acc ↔ a ∈ acc ∨ a ∈ xs
  | [], acc => by simp
  | x :: xs, acc => by
    rw [List.foldl_cons, @mem_foldl_insort a xs (insortEntry x acc)]
    simp [mem_insort]
    tauto

theorem sortEntries_sorted (l : List StanceEntry) : SortedD (sortEntries l) :=
  foldl_insort_sorted l [] List.Pairwise.nil

theorem dFilter_sortEntries (d : String) (l : List StanceEntry) :
    dFilter d (sortEntries l) = dFilter d l := by
  have := foldl_insort_filter d l [] List.Pairwise.nil
  simpa [sortEntries] using this

theorem mem_sortEntries {a : StanceEntry} {l : List StanceEntry} :
    a ∈ sortEntries l ↔ a ∈ l := by
  have := @mem_foldl_insort a l []
  simpa [sortEntries] using this

/-- Two date-sorted entry lists with the same entries at every date
are equal: sortedness plus per-date filters determine the list. -/
theorem sorted_ext : ∀ {l m : List StanceEntry}, SortedD l → SortedD m →
    (∀ d, dFilter d l = dFilter d m) → l = m
  | [], m, _, _, h => by
    cases m with
    | nil => rfl
    | cons y ys =>
      have := h y.date
      rw [dFilter_nil, dFilter_cons, if_pos rfl] at this
      exact absurd this (by simp)
  | x :: xs, m, hl, hm, h => by
    cases m with
    | nil =>
      have := h x.date
      rw [dFilter_nil, dFilter_cons, if_pos rfl] at this
      exact absurd this (by simp)
    | cons y ys =>
      rcases List.pairwise_cons.1 hl with ⟨hx, hxs⟩
      rcases List.pairwise_cons.1 hm with ⟨hy, hys⟩
      have hxm : x ∈ y :: ys := by
        have : x ∈ dFilter x.date (y :: ys) := by
          rw [← h x.date]
          exact mem_dFilter_self (List.mem_cons_self x xs)
        exact mem_of_mem_dFilter this
      have hym : y ∈ x :: xs := by
        have : y ∈ dFilter y.date (x :: xs) := by
          rw [h y.date]
          exact mem_dFilter_self (List.mem_cons_self y ys)
        exact mem_of_mem_dFilter this
      have hxy : strLe x.date y.date = true := by
        rcases List.mem_cons.1 hym with rfl | hym
        · exact strLe_refl _
        · exact hx y hym
      have hyx : strLe y.date x.date = true := by
        rcases List.mem_cons.1 hxm with rfl | hxm
        · exact strLe_refl _
        · exact hy x hxm
      have hdate : x.date = y.date := strLe_antisymm hxy hyx
      have hhead := h x.date
      rw [dFilter_cons, dFilter_cons, if_pos rfl, if_pos hdate.symm] at hhead
      have hxey : x = y := by injection hhead
      have htails : ∀ d, dFilter d xs = dFilter d ys := by
        intro d
        by_cases hd : x.date = d
        · have hfd := h d
          rw [dFilter_cons, dFilter_cons, if_pos hd,
            if_pos (by rw [← hxey]; exact hd)] at hfd
          injection hfd
        · have hfd := h d
          rw [dFilter_cons, dFilter_cons, if_neg hd,
            if_neg (by rw [← hxey]; exact hd)] at hfd
          exact hfd
      rw [hxey, sorted_ext hxs hys htails]

theorem sortEntries_of_sorted {l : List StanceEntry} (h : SortedD l) :
    sortEntries l = l :=
  sorted_ext (sortEntries_sorted l) h (fun d => dFilter_sortEntries d l)

/-! ### Backfill -/

theorem backfill_date (e : StanceEntry) : (backfill_entry e).date = e.date := by
  unfold backfill_entry
  cases hp : e.policy_score.isSome <;> cases hb : e.balance_sheet_score.isSome <;>
    simp [hp, hb]

theorem backfill_filled (e : StanceEntry) :
    filledB (backfill_entry e) = true := by
  unfold backfill_entry filledB
  cases hp : e.policy_score <;> cases hb : e.balance_sheet_score <;>
    simp [hp, hb]

theorem backfill_of_filled {e : StanceEntry} (h : filledB e = true) :
    backfill_entry e = e := by
  unfold filledB at h
  rw [Bool.and_eq_true] at h
  unfold backfill_entry
  simp [h.1, h.2]

theorem backfill_idem (e : StanceEntry) :
    backfill_entry (backfill_entry e) = backfill_entry e :=
  backfill_of_filled (backfill_filled e)

theorem dFilter_map_backfill (d : String) :
    ∀ (l : List StanceEntry),
      dFilter d (l.map backfill_entry) = (dFilter d l).map backfill_entry
  | [] => rfl
  | e :: t => by
    rw [List.map_cons, dFilter_cons, dFilter_cons, backfill_date]
    by_cases h : e.date = d
    · rw [if_pos h, if_pos h, List.map_cons, dFilter_map_backfill d t]
    · rw [if_neg h, if_neg h, dFilter_map_backfill d t]

theorem map_backfill_of_filled :
    ∀ {l : List StanceEntry}, (∀ x ∈ l, filledB x = true) →
      l.map backfill_entry = l
  | [], _ => rfl
  | e :: t, h => by
    rw [List.map_cons, backfill_of_filled (h e (List.mem_cons_self e t)),
      map_backfill_of_filled (fun x hx => h x (List.mem_cons_of_mem e hx))]

/-! ### The merged per-participant list -/

theorem mergedList_sorted (s q : List StanceEntry) :
    SortedD (mergedList s q) :=
  sortEntries_sorted _

theorem mergedList_filled (s q : List StanceEntry) :
    ∀ x ∈ mergedList s q, filledB x = true := by
  intro x hx
  rcases List.mem_map.1 (mem_sortEntries.1 hx) with ⟨y, _, rfl⟩
  exact backfill_filled y

theorem map_backfill_idem (l : List StanceEntry) :
    (l.map backfill_entry).map backfill_entry = l.map backfill_entry :=
  map_backfill_of_filled (fun x hx => by
    rcases List.mem_map.1 hx with ⟨y, _, rfl⟩
    exact backfill_filled y)

theorem contains_true_iff (l : List String) (d : String) :
    l.contains d = true ↔ d ∈ l := List.elem_iff

theorem contains_false_iff (l : List String) (d : String) :
    l.contains d = false ↔ d ∉ l := by
  rw [← Bool.not_eq_true]
  exact not_congr (contains_true_iff l d)

theorem dFilter_seedDates {s : List StanceEntry} {d : String}
    (h : (s.map (·.date)).contains d = false) : dFilter d s = [] := by
  apply dFilter_eq_nil_of
  intro e he hed
  exact (contains_false_iff _ _).1 h (List.mem_map.2 ⟨e, he, hed⟩)

theorem dFilter_overlay_seed {s q : List StanceEntry} {d : String}
    (h : (s.map (·.date)).contains d = true) :
    dFilter d (q.filter (fun e => !((s.map (·.date)).contains e.date))) = [] := by
  apply dFilter_eq_nil_of
  intro e he hed
  have hkeep := List.of_mem_filter he
  rw [hed, h] at hkeep
  simp at hkeep

theorem dFilter_overlay_nonseed {s : List StanceEntry} {d : String}
    (h : (s.map (·.date)).contains d = false) :
    ∀ (q : List StanceEntry),
      dFilter d (q.filter (fun e => !((s.map (·.date)).contains e.date))) =
        dFilter d q
  | [] => rfl
  | e :: t => by
    rw [List.filter_cons, dFilter_cons]
    by_cases hk : ((s.map (·.date)).contains e.date) = true
    · have hed : e.date ≠ d := by
        intro hh
        rw [hh, h] at hk
        exact Bool.false_ne_true hk
      rw [if_neg hed, hk]
      simp only [Bool.not_true, Bool.false_eq_true, if_false]
      exact dFilter_overlay_nonseed h t
    · rw [Bool.not_eq_true] at hk
      rw [hk]
      simp only [Bool.not_false, if_true]
      rw [dFilter_cons]
      by_cases hed : e.date = d
      · rw [if_pos hed, if_pos hed, dFilter_overlay_nonseed h t]
      · rw [if_neg hed, if_neg hed, dFilter_overlay_nonseed h t]

theorem dFilter_mergedList_seed {s : List StanceEntry} {d : String}
    (h : (s.map (·.date)).contains d = true) (q : List StanceEntry) :
    dFilter d (mergedList s q) = (dFilter d s).map backfill_entry := by
  unfold mergedList
  rw [dFilter_sortEntries, dFilter_map_backfill, dFilter_append,
    dFilter_overlay_seed h, List.append_nil]

theorem dFilter_mergedList_nonseed {s : List StanceEntry} {d : String}
    (h : (s.map (·.date)).contains d = false) (q : List StanceEntry) :
    dFilter d (mergedList s q) = (dFilter d q).map backfill_entry := by
  unfold mergedList
  rw [dFilter_sortEntries, dFilter_map_backfill, dFilter_append,
    dFilter_seedDates h, dFilter_overlay_nonseed h q, List.nil_append]

/-- Reloading a merged value against the same seed list is stable. -/
theorem mergedList_reload (s q : List StanceEntry) :
    mergedList s (mergedList s q) = mergedList s q := by
  apply sorted_ext (mergedList_sorted _ _) (mergedList_sorted _ _)
  intro d
  by_cases h : ((s.map (·.date)).contains d) = true
  · rw [dFilter_mergedList_seed h, dFilter_mergedList_seed h]
  · rw [Bool.not_eq_true] at h
    rw [dFilter_mergedList_nonseed h, dFilter_mergedList_nonseed h,
      map_backfill_idem]

/-! ### Association-list (Python dict) lemmas -/

theorem lookup_dictSet_self (h : History) (n : String) (v : List StanceEntry) :
    lookupH (dictSet h n v) n = some v := by
  induction h with
  | nil => simp [dictSet, lookupH]
  | cons kv rest ih =>
    rcases kv with ⟨k, w⟩
    simp only [dictSet]
    by_cases hk : k = n
    · rw [if_pos hk]
      simp [lookupH, hk]
    · rw [if_neg hk]
      simp [lookupH, hk, ih]

theorem lookup_dictSet_ne (h : History) {m n : String} (v : List StanceEntry)
    (hmn : m ≠ n) : lookupH (dictSet h n v) m = lookupH h m := by
  induction h with
  | nil =>
    simp only [dictSet, lookupH]
    rw [if_neg (fun hh => hmn hh.symm)]
  | cons kv rest ih =>
    rcases kv with ⟨k, w⟩
    simp only [dictSet]
    by_cases hk : k = n
    · rw [if_pos hk]
      simp only [lookupH]
      rw [if_neg (by rw [hk]; exact fun hh => hmn hh.symm),
        if_neg (by rw [hk]; exact fun hh => hmn hh.symm)]
    · rw [if_neg hk]
      simp only [lookupH]
      by_cases hkm : k = m
      · rw [if_pos hkm, if_pos hkm]
      · rw [if_neg hkm, if_neg hkm, ih]

theorem lookup_none_iff (h : History) (n : String) :
    lookupH h n = none ↔ n ∉ keysOf h := by
  induction h with
  | nil => simp [lookupH, keysOf]
  | cons kv rest ih =>
    rcases kv with ⟨k, w⟩
    simp only [lookupH, keysOf, List.map_cons, List.mem_cons]
    by_cases hk : k = n
    · rw [if_pos hk]
      simp [hk]
    · rw [if_neg hk]
      rw [keysOf] at ih
      rw [ih]
      constructor
      · intro hni hmem
        rcases hmem with hh | hh
        · exact hk hh.symm
        · exact hni hh
      · intro hni hh
        exact hni (Or.inr hh)

theorem lookup_mem {h : History} {n : String} {v : List StanceEntry}
    (hl : lookupH h n = some v) : (n, v) ∈ h := by
  induction h with
  | nil => simp [lookupH] at hl
  | cons kv rest ih =>
    rcases kv with ⟨k, w⟩
    simp only [lookupH] at hl
    by_cases hk : k = n
    · rw [if_pos hk] at hl
      cases hl
      subst hk
      exact List.mem_cons_self _ _
    · rw [if_neg hk] at hl
      exact List.mem_cons_of_mem _ (ih hl)

theorem lookup_isSome_iff (h : History) (n : String) :
    (lookupH h n).isSome = true ↔ n ∈ keysOf h := by
  cases hl : lookupH h n with
  | none =>
    simp only [Option.isSome_none, Bool.false_eq_true, false_iff]
    exact (lookup_none_iff h n).1 hl
  | some v =>
    simp only [Option.isSome_some, true_iff]
    exact List.mem_map.2 ⟨(n, v), lookup_mem hl, rfl⟩

theorem mem_lookup {h : History} {n : String} {v : List StanceEntry}
    (hnd : (keysOf h).Nodup) (hm : (n, v) ∈ h) : lookupH h n = some v := by
  induction h with
  | nil => simp at hm
  | cons kv rest ih =>
    rcases kv with ⟨k, w⟩
    rw [keysOf, List.map_cons, List.nodup_cons] at hnd
    rcases List.mem_cons.1 hm with heq | hm2
    · cases heq
      simp [lookupH]
    · have hkn : k ≠ n := by
        intro hh
        exact hnd.1 (hh ▸ List.mem_map.2 ⟨(n, v), hm2, rfl⟩)
      simp only [lookupH]
      rw [if_neg hkn]
      exact ih hnd.2 hm2

theorem keysOf_dictSet_mem (h : History) (n : String) (v : List StanceEntry)
    (hm : n ∈ keysOf h) : keysOf (dictSet h n v) = keysOf h := by
  induction h with
  | nil => simp [keysOf] at hm
  | cons kv rest ih =>
    rcases kv with ⟨k, w⟩
    simp only [dictSet]
    by_cases hk : k = n
    · rw [if_pos hk]
      simp [keysOf]
    · rw [if_neg hk]
      rcases List.mem_cons.1 hm with heq | hm2
      · exact absurd heq.symm hk
      · have hrec := ih hm2
        simp only [keysOf, List.map_cons] at hrec ⊢
        rw [hrec]

theorem keysOf_dictSet_new (h : History) (n : String) (v : List StanceEntry)
    (hm : n ∉ keysOf h) : keysOf (dictSet h n v) = keysOf h ++ [n] := by
  induction h with
  | nil => simp [dictSet, keysOf]
  | cons kv rest ih =>
    rcases kv with ⟨k, w⟩
    simp only [keysOf, List.map_cons, List.mem_cons] at hm
    push_neg at hm
    simp only [dictSet]
    rw [if_neg (fun hh => hm.1 hh.symm)]
    have hrec := ih (by rw [keysOf]; exact hm.2)
    simp only [keysOf, List.map_cons, List.cons_append] at hrec ⊢
    rw [hrec]

theorem entriesFor_dictSet_self (h : History) (n : String)
    (v : List StanceEntry) : entriesFor (dictSet h n v) n = v := by
  rw [entriesFor, lookup_dictSet_self]
  rfl

theorem entriesFor_dictSet_ne (h : History) {m n : String}
    (v : List StanceEntry) (hmn : m ≠ n) :
    entriesFor (dictSet h n v) m = entriesFor h m := by
  rw [entriesFor, entriesFor, lookup_dictSet_ne h v hmn]

/-! ### The overlay fold of `load_history` -/

theorem overlayOne_lookup_self (h : History) (n : String)
    (es : List StanceEntry) :
    lookupH (overlayOne h (n, es)) n =
      some (entriesFor h n ++
        es.filter (fun e => !(((entriesFor h n).map (·.date)).contains e.date)))
    := by
  simp only [overlayOne]
  by_cases hs : (lookupH h n).isSome = true
  · rw [if_pos hs]
    rw [lookup_dictSet_self]
  · rw [if_neg hs]
    have hnone : lookupH h n = none := by
      cases hl : lookupH h n with
      | none => rfl
      | some v => rw [hl] at hs; simp at hs
    have h0 : entriesFor h n = [] := by rw [entriesFor, hnone]; rfl
    rw [entriesFor_dictSet_self, lookup_dictSet_self, h0]

theorem overlayOne_lookup_ne (h : History) {m n : String}
    (es : List StanceEntry) (hmn : m ≠ n) :
    lookupH (overlayOne h (n, es)) m = lookupH h m := by
  simp only [overlayOne]
  by_cases hs : (lookupH h n).isSome = true
  · rw [if_pos hs, lookup_dictSet_ne _ _ hmn]
  · rw [if_neg hs, lookup_dictSet_ne _ _ hmn, lookup_dictSet_ne _ _ hmn]

theorem overlayOne_keys (h : History) (n : String) (es : List StanceEntry) :
    keysOf (overlayOne h (n, es)) =
      if n ∈ keysOf h then keysOf h else keysOf h ++ [n] := by
  simp only [overlayOne]
  by_cases hs : (lookupH h n).isSome = true
  · have hm : n ∈ keysOf h := (lookup_isSome_iff h n).1 hs
    rw [if_pos hs, if_pos hm, keysOf_dictSet_mem _ _ _ hm]
  · have hm : n ∉ keysOf h := by
      rw [← lookup_isSome_iff]
      simpa using hs
    rw [if_neg hs, if_neg hm]
    have h1 : keysOf (dictSet h n []) = keysOf h ++ [n] :=
      keysOf_dictSet_new h n [] hm
    rw [keysOf_dictSet_mem _ _ _ (by rw [h1]; simp), h1]

theorem overlayAll_cons (h : History) (nv : String × List StanceEntry)
    (rest : History) :
    overlayAll h (nv :: rest) = overlayAll (overlayOne h nv) rest := rfl

theorem overlayAll_lookup_notin :
    ∀ (p : History) (h : History) (n : String), n ∉ keysOf p →
      lookupH (overlayAll h p) n = lookupH h n
  | [], _, _, _ => rfl
  | (m, es) :: rest, h, n, hn => by
    simp only [keysOf, List.map_cons, List.mem_cons] at hn
    push_neg at hn
    rw [overlayAll_cons,
      overlayAll_lookup_notin rest _ n (by rw [keysOf]; exact hn.2),
      overlayOne_lookup_ne h es hn.1]

theorem overlayAll_lookup_mem :
    ∀ (p : History) (h : History) (n : String) (es : List StanceEntry),
      (keysOf p).Nodup → (n, es) ∈ p →
      lookupH (overlayAll h p) n =
        some (entriesFor h n ++
          es.filter
            (fun e => !(((entriesFor h n).map (·.date)).contains e.date)))
  | [], _, _, _, _, hm => by simp at hm
  | (m, fs) :: rest, h, n, es, hnd, hm => by
    rw [keysOf, List.map_cons, List.nodup_cons] at hnd
    rw [overlayAll_cons]
    rcases List.mem_cons.1 hm with heq | hm2
    · cases heq
      rw [overlayAll_lookup_notin rest _ _ hnd.1, overlayOne_lookup_self]
    · have hmn : n ≠ m := by
        intro hh
        exact hnd.1 (hh ▸ List.mem_map.2 ⟨(n, es), hm2, rfl⟩)
      rw [overlayAll_lookup_mem rest (overlayOne h (m, fs)) n es hnd.2 hm2,
        entriesFor, overlayOne_lookup_ne h fs hmn, ← entriesFor]

theorem filter_not_contains_sub {l : List String} (ks : List String)
    (sub : ∀ k ∈ l, k ∈ ks) :
    l.filter (fun k => !(ks.contains k)) = [] := by
  apply List.filter_eq_nil_iff.2
  intro k hk
  have hc : (ks.contains k) = true := (contains_true_iff ks k).2 (sub k hk)
  rw [hc]
  simp

theorem overlayAll_keys :
    ∀ (p : History) (h : History), (keysOf p).Nodup →
      keysOf (overlayAll h p) =
        keysOf h ++ (keysOf p).filter (fun k => !((keysOf h).contains k))
  | [], h, _ => by simp [overlayAll, keysOf]
  | (m, es) :: rest, h, hnd => by
    rw [keysOf, List.map_cons, List.nodup_cons] at hnd
    rw [overlayAll_cons, overlayAll_keys rest (overlayOne h (m, es)) hnd.2]
    have hkeys := overlayOne_keys h m es
    show _ = keysOf h ++ List.filter _ (m :: keysOf rest)
    rw [List.filter_cons]
    by_cases hm : m ∈ keysOf h
    · have hone : keysOf (overlayOne h (m, es)) = keysOf h := by
        rw [hkeys, if_pos hm]
      rw [hone, (contains_true_iff _ _).2 hm]
      simp only [Bool.not_true, Bool.false_eq_true, if_false]
    · have hone : keysOf (overlayOne h (m, es)) = keysOf h ++ [m] := by
        rw [hkeys, if_neg hm]
      rw [hone, (contains_false_iff _ _).2 hm]
      simp only [Bool.not_false, if_true]
      rw [List.append_assoc, List.singleton_append]
      congr 2
      apply List.filter_congr
      intro k hk
      have hkm : k ≠ m := fun hh => hnd.1 (hh ▸ hk)
      by_cases hkh : k ∈ keysOf h
      · rw [(contains_true_iff _ _).2 hkh,
          (contains_true_iff _ _).2 (List.mem_append_left _ hkh)]
      · have hc2 : ((keysOf h ++ [m]).contains k) = false := by
          apply (contains_false_iff _ _).2
          intro hmem
          rcases List.mem_append.1 hmem with hh | hh
          · exact hkh hh
          · exact hkm (by simpa using hh)
        rw [(contains_false_iff _ _).2 hkh, hc2]

/-! ### Characterization of `load_history` and `add_stance` -/

theorem lookup_eq_entriesFor {h : History} {n : String}
    (hs : (lookupH h n).isSome = true) :
    lookupH h n = some (entriesFor h n) := by
  cases hl : lookupH h n with
  | none => rw [hl] at hs; simp at hs
  | some v => rw [entriesFor, hl]; rfl

theorem lookup_map_val (h : History) (n : String) :
    lookupH (h.map (fun kv => (kv.1, sortEntries (kv.2.map backfill_entry)))) n
      = (lookupH h n).map (fun v => sortEntries (v.map backfill_entry)) := by
  induction h with
  | nil => rfl
  | cons kv rest ih =>
    rcases kv with ⟨k, w⟩
    simp only [List.map_cons, lookupH]
    by_cases hk : k = n
    · rw [if_pos hk, if_pos hk]
      rfl
    · rw [if_neg hk, if_neg hk, ih]

theorem keysOf_map_val (h : History) :
    keysOf (h.map (fun kv => (kv.1, sortEntries (kv.2.map backfill_entry)))) =
      keysOf h := by
  induction h with
  | nil => rfl
  | cons kv rest ih =>
    rcases kv with ⟨k, w⟩
    simp only [List.map_cons, keysOf] at ih ⊢
    rw [ih]

theorem load_history_entriesFor (p : History) (hnd : (keysOf p).Nodup)
    (n : String) :
    entriesFor (load_history p) n =
      mergedList (entriesFor SEED_DATA n) (entriesFor p n) := by
  unfold load_history
  rw [entriesFor, lookup_map_val]
  rcases hp : lookupH p n with _ | es
  · have hnp : n ∉ keysOf p := (lookup_none_iff p n).1 hp
    rw [overlayAll_lookup_notin p SEED_DATA n hnp]
    have hpe : entriesFor p n = [] := by rw [entriesFor, hp]; rfl
    rw [hpe]
    rcases hs : lookupH SEED_DATA n with _ | s
    · have hse : entriesFor SEED_DATA n = [] := by rw [entriesFor, hs]; rfl
      rw [hse]
      rfl
    · have hse : entriesFor SEED_DATA n = s := by rw [entriesFor, hs]; rfl
      rw [hse]
      simp [mergedList]
  · have hm := lookup_mem hp
    rw [overlayAll_lookup_mem p SEED_DATA n es hnd hm]
    have hpe : entriesFor p n = es := by rw [entriesFor, hp]; rfl
    rw [hpe]
    rfl

theorem load_history_keys (p : History) (hnd : (keysOf p).Nodup) :
    keysOf (load_history p) =
      keysOf SEED_DATA ++
        (keysOf p).filter (fun k => !((keysOf SEED_DATA).contains k)) := by
  unfold load_history
  rw [keysOf_map_val, overlayAll_keys p SEED_DATA hnd]

theorem load_history_lookup_isSome (p : History)
    {n : String} (hn : n ∈ keysOf (load_history p)) :
    lookupH (load_history p) n = some (entriesFor (load_history p) n) :=
  lookup_eq_entriesFor ((lookup_isSome_iff _ n).2 hn)

theorem ensureKey_entriesFor (h : History) (n m : String) :
    entriesFor (ensureKey h n) m = entriesFor h m := by
  unfold ensureKey
  by_cases hs : (lookupH h n).isSome = true
  · rw [if_pos hs]
  · rw [if_neg hs]
    by_cases hm : m = n
    · subst hm
      rw [entriesFor_dictSet_self]
      have hnone : lookupH h m = none := by
        cases hl : lookupH h m with
        | none => rfl
        | some v => rw [hl] at hs; simp at hs
      rw [entriesFor, hnone]
      rfl
    · rw [entriesFor_dictSet_ne _ _ hm]

theorem ensureKey_lookup_ne (h : History) {m n : String} (hmn : m ≠ n) :
    lookupH (ensureKey h n) m = lookupH h m := by
  unfold ensureKey
  by_cases hs : (lookupH h n).isSome = true
  · rw [if_pos hs]
  · rw [if_neg hs, lookup_dictSet_ne _ _ hmn]

theorem ensureKey_keys (h : History) (n : String) :
    keysOf (ensureKey h n) =
      if n ∈ keysOf h then keysOf h else keysOf h ++ [n] := by
  unfold ensureKey
  by_cases hs : (lookupH h n).isSome = true
  · rw [if_pos hs, if_pos ((lookup_isSome_iff h n).1 hs)]
  · have hm : n ∉ keysOf h := by
      rw [← lookup_isSome_iff]
      simpa using hs
    rw [if_neg hs, if_neg hm, keysOf_dictSet_new h n [] hm]

theorem add_stance_lookup_self (name : String) (score : ℚ) (label date source
    : String) (ev : Option (List EvidenceItem)) (ps : Option ℚ)
    (pl : Option String) (bs : Option ℚ) (bsl : Option String) (p : History) :
    lookupH (add_stance name score label date source ev ps pl bs bsl p) name =
      some (upsertList
        (mkStanceEntry score label date source ev ps pl bs bsl) date
        (entriesFor (load_history p) name)) := by
  unfold add_stance save_history
  rw [lookup_dictSet_self, ensureKey_entriesFor]

theorem add_stance_lookup_ne (name : String) (score : ℚ) (label date source
    : String) (ev : Option (List EvidenceItem)) (ps : Option ℚ)
    (pl : Option String) (bs : Option ℚ) (bsl : Option String) (p : History)
    {m : String} (hm : m ≠ name) :
    lookupH (add_stance name score label date source ev ps pl bs bsl p) m =
      lookupH (load_history p) m := by
  unfold add_stance save_history
  rw [lookup_dictSet_ne _ _ hm, ensureKey_lookup_ne _ hm]

theorem add_stance_keys (name : String) (score : ℚ) (label date source
    : String) (ev : Option (List EvidenceItem)) (ps : Option ℚ)
    (pl : Option String) (bs : Option ℚ) (bsl : Option String) (p : History) :
    keysOf (add_stance name score label date source ev ps pl bs bsl p) =
      if name ∈ keysOf (load_history p) then keysOf (load_history p)
      else keysOf (load_history p) ++ [name] := by
  unfold add_stance save_history
  rw [keysOf_dictSet_mem _ _ _ ?_, ensureKey_keys]
  rw [ensureKey_keys]
  by_cases hm : name ∈ keysOf (load_history p)
  · rw [if_pos hm]
    exact hm
  · rw [if_neg hm]
    simp

/-! ### Last-index and in-place replacement -/

theorem lastIdx_none_iff (ds : List String) (d : String) :
    lastIdxOfDate ds d = none ↔ d ∉ ds := by
  induction ds with
  | nil => simp [lastIdxOfDate]
  | cons d0 rest ih =>
    simp only [lastIdxOfDate, List.mem_cons]
    cases hl : lastIdxOfDate rest d with
    | some i =>
      simp only []
      constructor
      · intro hh; exact absurd hh (by simp)
      · intro hh
        exact absurd ((ih.2 (fun hm => hh (Or.inr hm))) ▸ hl) (by simp [hl])
    | none =>
      by_cases h0 : d0 = d
      · rw [if_pos h0]
        constructor
        · intro hh; exact absurd hh (by simp)
        · intro hh; exact absurd (Or.inl h0.symm) hh
      · rw [if_neg h0]
        constructor
        · intro _ hh
          rcases hh with hh | hh
          · exact h0 hh.symm
          · exact (ih.1 hl) hh
        · intro _; rfl

theorem lastIdx_get :
    ∀ (l : List StanceEntry) (d : String) (i : Nat),
      lastIdxOfDate (l.map (·.date)) d = some i →
      ∃ a, l.get? i = some a ∧ a.date = d ∧
        (dFilter d l).getLast? = some a
  | [], d, i, h => by simp [lastIdxOfDate] at h
  | x :: xs, d, i, h => by
    simp only [List.map_cons, lastIdxOfDate] at h
    cases hl : lastIdxOfDate (xs.map (·.date)) d with
    | some j =>
      rw [hl] at h
      cases h
      rcases lastIdx_get xs d j hl with ⟨a, hget, hdate, hlast⟩
      refine ⟨a, by simpa using hget, hdate, ?_⟩
      rw [dFilter_cons]
      have hne : dFilter d xs ≠ [] := by
        intro hh
        rw [hh] at hlast
        simp at hlast
      by_cases hx : x.date = d
      · rw [if_pos hx]
        cases hd : dFilter d xs with
        | nil => exact absurd hd hne
        | cons y ys =>
          rw [hd] at hlast
          rw [List.getLast?_cons_cons]
          exact hlast
      · rw [if_neg hx]
        exact hlast
    | none =>
      rw [hl] at h
      by_cases hx : x.date = d
      · rw [if_pos hx] at h
        cases h
        refine ⟨x, rfl, hx, ?_⟩
        rw [dFilter_cons, if_pos hx]
        have hnil : dFilter d xs = [] := by
          apply dFilter_eq_nil_of
          intro e he hed
          exact ((lastIdx_none_iff _ _).1 hl)
            (List.mem_map.2 ⟨e, he, hed⟩)
        rw [hnil]
        rfl
      · rw [if_neg hx] at h
        exact absurd h (by simp)

theorem get?_set_self :
    ∀ (l : List StanceEntry) (i : Nat) (a b : StanceEntry),
      l.get? i = some a → (l.set i b).get? i = some b
  | [], i, _, _, h => by simp at h
  | x :: xs, 0, a, b, _ => rfl
  | x :: xs, i + 1, a, b, h => by
    simp only [List.set_cons_succ, List.get?_cons_succ] at h ⊢
    exact get?_set_self xs i a b h

theorem set_get_self :
    ∀ (l : List StanceEntry) (i : Nat) (a : StanceEntry),
      l.get? i = some a → l.set i a = l
  | [], _, _, h => by simp at h
  | x :: xs, 0, a, h => by
    simp only [List.get?_cons_zero] at h
    cases h
    rfl
  | x :: xs, i + 1, a, h => by
    simp only [List.get?_cons_succ] at h
    simp only [List.set_cons_succ]
    rw [set_get_self xs i a h]

theorem mem_set_sub :
    ∀ (l : List StanceEntry) (i : Nat) (b x : StanceEntry),
      x ∈ l.set i b → x = b ∨ x ∈ l
  | [], _, _, _, h => Or.inr h
  | y :: ys, 0, b, x, h => by
    rcases List.mem_cons.1 h with rfl | h2
    · exact Or.inl rfl
    · exact Or.inr (List.mem_cons_of_mem _ h2)
  | y :: ys, i + 1, b, x, h => by
    simp only [List.set_cons_succ] at h
    rcases List.mem_cons.1 h with rfl | h2
    · exact Or.inr (List.mem_cons_self _ _)
    · rcases mem_set_sub ys i b x h2 with hh | hh
      · exact Or.inl hh
      · exact Or.inr (List.mem_cons_of_mem _ hh)

theorem map_date_set :
    ∀ (l : List StanceEntry) (i : Nat) (a b : StanceEntry),
      l.get? i = some a → a.date = b.date →
      (l.set i b).map (·.date) = l.map (·.date)
  | [], _, _, _, h, _ => by simp at h
  | x :: xs, 0, a, b, h, hd => by
    simp only [List.get?_cons_zero] at h
    cases h
    simp only [List.set_cons_zero, List.map_cons]
    rw [← hd]
  | x :: xs, i + 1, a, b, h, hd => by
    simp only [List.get?_cons_succ] at h
    simp only [List.set_cons_succ, List.map_cons]
    rw [map_date_set xs i a b h hd]

theorem dFilter_set_ne :
    ∀ (l : List StanceEntry) (i : Nat) (a b : StanceEntry) (d : String),
      l.get? i = some a → a.date = b.date → b.date ≠ d →
      dFilter d (l.set i b) = dFilter d l
  | [], _, _, _, _, h, _, _ => by simp at h
  | x :: xs, 0, a, b, d, h, hd, hbd => by
    simp only [List.get?_cons_zero] at h
    cases h
    simp only [List.set_cons_zero]
    rw [dFilter_cons, dFilter_cons, if_neg hbd, if_neg (hd ▸ hbd)]
  | x :: xs, i + 1, a, b, d, h, hd, hbd => by
    simp only [List.get?_cons_succ] at h
    simp only [List.set_cons_succ]
    rw [dFilter_cons, dFilter_cons, dFilter_set_ne xs i a b d h hd hbd]

theorem get?_mem_entries :
    ∀ (l : List StanceEntry) (i : Nat) (a : StanceEntry),
      l.get? i = some a → a ∈ l
  | [], _, _, h => by simp at h
  | x :: xs, 0, a, h => by
    simp only [List.get?_cons_zero] at h
    cases h
    exact List.mem_cons_self _ _
  | x :: xs, i + 1, a, h => by
    simp only [List.get?_cons_succ] at h
    exact List.mem_cons_of_mem _ (get?_mem_entries xs i a h)

theorem sorted_set :
    ∀ (l : List StanceEntry) (i : Nat) (a b : StanceEntry),
      SortedD l → l.get? i = some a → a.date = b.date →
      SortedD (l.set i b)
  | [], _, _, _, h, _, _ => h
  | x :: xs, 0, a, b, hs, h, hd => by
    simp only [List.get?_cons_zero] at h
    cases h
    rcases List.pairwise_cons.1 hs with ⟨hx, hxs⟩
    simp only [List.set_cons_zero]
    apply List.pairwise_cons.2
    refine ⟨fun y hy => ?_, hxs⟩
    rw [← hd]
    exact hx y hy
  | x :: xs, i + 1, a, b, hs, h, hd => by
    simp only [List.get?_cons_succ] at h
    rcases List.pairwise_cons.1 hs with ⟨hx, hxs⟩
    simp only [List.set_cons_succ]
    apply List.pairwise_cons.2
    refine ⟨fun y hy => ?_, sorted_set xs i a b hxs h hd⟩
    rcases mem_set_sub xs i b y hy with rfl | hy2
    · rw [← hd]
      exact hx a (get?_mem_entries xs i a h)
    · exact hx y hy2

/-! ### Upsert against the merged store -/

theorem upsertList_eq_set {L : List StanceEntry} {entry : StanceEntry}
    {date : String} {i : Nat}
    (h : lastIdxOfDate (L.map (·.date)) date = some i) :
    upsertList entry date L = L.set i entry := by
  unfold upsertList
  rw [h]

theorem upsertList_eq_append {L : List StanceEntry} {entry : StanceEntry}
    {date : String}
    (h : lastIdxOfDate (L.map (·.date)) date = none) :
    upsertList entry date L = sortEntries (L ++ [entry]) := by
  unfold upsertList
  rw [h]

theorem set_set_self :
    ∀ (l : List StanceEntry) (i : Nat) (a b : StanceEntry),
      (l.set i a).set i b = l.set i b
  | [], _, _, _ => rfl
  | x :: xs, 0, _, _ => rfl
  | x :: xs, i + 1, a, b => by
    simp only [List.set_cons_succ]
    rw [set_set_self xs i a b]

theorem mem_dates_iff (l : List StanceEntry) (d : String) :
    d ∈ l.map (·.date) ↔ dFilter d l ≠ [] := by
  constructor
  · intro hm hnil
    rcases List.mem_map.1 hm with ⟨e, he, hed⟩
    have : e ∈ dFilter d l := by
      rw [← hed]
      exact mem_dFilter_self he
    rw [hnil] at this
    simp at this
  · intro hne
    by_contra hm
    exact hne (dFilter_eq_nil_of d
      (fun e he hed => hm (List.mem_map.2 ⟨e, he, hed⟩)))

theorem lastIdx_isSome {l : List StanceEntry} {d : String}
    (h : dFilter d l ≠ []) :
    ∃ i, lastIdxOfDate (l.map (·.date)) d = some i := by
  cases hc : lastIdxOfDate (l.map (·.date)) d with
  | none =>
    exact absurd ((mem_dates_iff l d).2 h) ((lastIdx_none_iff _ _).1 hc)
  | some i => exact ⟨i, rfl⟩

/-- Replacing the entry at a date already present in the seed list is
reverted by the next load: the seed is the floor. -/
theorem mergedList_upsert_seedDate {s q : List StanceEntry}
    {entry : StanceEntry} {date : String} (hdate : entry.date = date)
    (hsd : ((s.map (·.date)).contains date) = true) :
    mergedList s (upsertList entry date (mergedList s q)) = mergedList s q := by
  have hdmem : date ∈ s.map (·.date) := (contains_true_iff _ _).1 hsd
  have hsfil : dFilter date s ≠ [] := (mem_dates_iff s date).1 hdmem
  have hfil : dFilter date (mergedList s q) ≠ [] := by
    rw [dFilter_mergedList_seed hsd]
    intro hh
    exact hsfil (List.map_eq_nil_iff.1 hh)
  obtain ⟨i, hi⟩ := lastIdx_isSome hfil
  obtain ⟨a, hget, hadate, _⟩ := lastIdx_get _ date i hi
  rw [upsertList_eq_set hi]
  apply sorted_ext (mergedList_sorted _ _) (mergedList_sorted s q)
  intro d
  by_cases hd : ((s.map (·.date)).contains d) = true
  · rw [dFilter_mergedList_seed hd, dFilter_mergedList_seed hd]
  · rw [Bool.not_eq_true] at hd
    have hdne : date ≠ d := by
      intro hh
      rw [hh, hd] at hsd
      simp at hsd
    rw [dFilter_mergedList_nonseed hd,
      dFilter_set_ne _ i a entry d hget (by rw [hadate, hdate])
        (by rw [hdate]; exact hdne),
      dFilter_mergedList_nonseed hd, map_backfill_idem]

/-- Upserting at a date not present in the seed list survives the next
load unchanged. -/
theorem mergedList_upsert_nonseedDate {s q : List StanceEntry}
    {entry : StanceEntry} {date : String} (hdate : entry.date = date)
    (hfill : filledB entry = true)
    (hsd : ((s.map (·.date)).contains date) = false) :
    mergedList s (upsertList entry date (mergedList s q)) =
      upsertList entry date (mergedList s q) := by
  cases hli : lastIdxOfDate ((mergedList s q).map (·.date)) date with
  | some i =>
    obtain ⟨a, hget, hadate, _⟩ := lastIdx_get _ date i hli
    rw [upsertList_eq_set hli]
    apply sorted_ext (mergedList_sorted _ _)
      (sorted_set _ i a entry (mergedList_sorted s q) hget
        (by rw [hadate, hdate]))
    intro d
    by_cases hd : ((s.map (·.date)).contains d) = true
    · have hdne : date ≠ d := by
        intro hh
        rw [hh, hd] at hsd
        simp at hsd
      rw [dFilter_mergedList_seed hd,
        dFilter_set_ne _ i a entry d hget (by rw [hadate, hdate])
          (by rw [hdate]; exact hdne),
        dFilter_mergedList_seed hd]
    · rw [Bool.not_eq_true] at hd
      rw [dFilter_mergedList_nonseed hd]
      apply map_backfill_of_filled
      intro x hx
      rcases mem_set_sub _ i entry x (mem_of_mem_dFilter hx) with rfl | hx2
      · exact hfill
      · exact mergedList_filled s q x hx2
  | none =>
    rw [upsertList_eq_append hli]
    apply sorted_ext (mergedList_sorted _ _) (sortEntries_sorted _)
    intro d
    by_cases hd : ((s.map (·.date)).contains d) = true
    · have hdne : date ≠ d := by
        intro hh
        rw [hh, hd] at hsd
        simp at hsd
      rw [dFilter_mergedList_seed hd, dFilter_sortEntries, dFilter_append,
        dFilter_cons, if_neg (by rw [hdate]; exact hdne), dFilter_nil,
        List.append_nil, dFilter_mergedList_seed hd]
    · rw [Bool.not_eq_true] at hd
      rw [dFilter_mergedList_nonseed hd]
      apply map_backfill_of_filled
      intro x hx
      have hxm := mem_of_mem_dFilter hx
      rw [mem_sortEntries] at hxm
      rcases List.mem_append.1 hxm with hx2 | hx2
      · exact mergedList_filled s q x hx2
      · rw [List.mem_singleton] at hx2
        subst hx2
        exact hfill

/-- Upserting the same entry twice in a row is the identity on the
second application. -/
theorem upsert_idem_on {L : List StanceEntry} {entry : StanceEntry}
    {date : String} (hdate : entry.date = date) :
    upsertList entry date (upsertList entry date L) =
      upsertList entry date L := by
  cases hli : lastIdxOfDate (L.map (·.date)) date with
  | some i =>
    obtain ⟨a, hget, hadate, _⟩ := lastIdx_get L date i hli
    have hmap : (L.set i entry).map (·.date) = L.map (·.date) :=
      map_date_set L i a entry hget (by rw [hadate, hdate])
    have houter : lastIdxOfDate ((L.set i entry).map (·.date)) date = some i := by
      rw [hmap]
      exact hli
    rw [upsertList_eq_set hli, upsertList_eq_set houter]
    exact set_set_self L i entry entry
  | none =>
    have hnilL : dFilter date L = [] := by
      apply dFilter_eq_nil_of
      intro e he hed
      exact ((lastIdx_none_iff _ _).1 hli) (List.mem_map.2 ⟨e, he, hed⟩)
    rw [upsertList_eq_append hli]
    have hfN : dFilter date (sortEntries (L ++ [entry])) = [entry] := by
      rw [dFilter_sortEntries, dFilter_append, hnilL, dFilter_cons,
        if_pos hdate, dFilter_nil]
      rfl
    obtain ⟨j, hj⟩ := @lastIdx_isSome (sortEntries (L ++ [entry]))
      date (by rw [hfN]; simp)
    rw [upsertList_eq_set hj]
    obtain ⟨b, hbget, hbdate, hblast⟩ := lastIdx_get _ date j hj
    rw [hfN] at hblast
    have hbe : b = entry := by simpa using hblast.symm
    rw [hbe] at hbget
    exact set_get_self _ j entry hbget

/-- Equal key sequences and equal lookups determine the store. -/
theorem assoc_ext : ∀ {h1 h2 : History}, (keysOf h1).Nodup →
    keysOf h1 = keysOf h2 →
    (∀ n, n ∈ keysOf h1 → lookupH h1 n = lookupH h2 n) → h1 = h2
  | [], h2, _, hk, _ => by
    cases h2 with
    | nil => rfl
    | cons kv t => simp [keysOf] at hk
  | (k, v) :: t1, h2, hnd, hk, hl => by
    cases h2 with
    | nil => simp [keysOf] at hk
    | cons kv2 t2 =>
      rcases kv2 with ⟨k2, v2⟩
      simp only [keysOf, List.map_cons] at hk
      injection hk with hk1 hk2
      subst hk1
      have hv : v = v2 := by
        have hlk := hl k (by simp [keysOf])
        simp only [lookupH, if_pos rfl] at hlk
        exact Option.some.inj hlk
      subst hv
      rw [keysOf, List.map_cons, List.nodup_cons] at hnd
      congr 1
      apply assoc_ext hnd.2 hk2
      intro n hn
      have hkn : k ≠ n := fun hh => hnd.1 (hh ▸ hn)
      have hlk := hl n (by
        rw [keysOf, List.map_cons]
        exact List.mem_cons_of_mem _ hn)
      simp only [lookupH] at hlk
      rw [if_neg hkn, if_neg hkn] at hlk
      exact hlk

/-! ### Key-sequence facts for loaded and upserted stores -/

theorem seed_keys_nodup : (keysOf SEED_DATA).Nodup := by decide

theorem load_keys_nodup (p : History) (hnd : (keysOf p).Nodup) :
    (keysOf (load_history p)).Nodup := by
  rw [load_history_keys p hnd]
  refine List.Nodup.append seed_keys_nodup (List.Nodup.filter _ hnd) ?_
  intro a ha1 ha2
  have hf := List.of_mem_filter ha2
  rw [(contains_true_iff _ _).2 ha1] at hf
  simp at hf

theorem load_keys_prefix_stable {h : History} (hnd : (keysOf h).Nodup)
    (X : List String) (hX : keysOf h = keysOf SEED_DATA ++ X) :
    keysOf (load_history h) = keysOf h := by
  rw [load_history_keys h hnd, hX, List.filter_append,
    filter_not_contains_sub (keysOf SEED_DATA) (fun k hk => hk),
    List.nil_append]
  congr 1
  rw [hX] at hnd
  have hdis := List.disjoint_of_nodup_append hnd
  apply List.filter_eq_self.2
  intro a ha
  have hna : a ∉ keysOf SEED_DATA := fun hh => hdis hh ha
  rw [(contains_false_iff _ _).2 hna]
  rfl

theorem add_keys_shape (name : String) (score : ℚ) (label date source
    : String) (ev : Option (List EvidenceItem)) (ps : Option ℚ)
    (pl : Option String) (bs : Option ℚ) (bsl : Option String) (p : History)
    (hnd : (keysOf p).Nodup) :
    ∃ X, keysOf (add_stance name score label date source ev ps pl bs bsl p) =
      keysOf SEED_DATA ++ X := by
  by_cases hm : name ∈ keysOf (load_history p)
  · rw [add_stance_keys, if_pos hm, load_history_keys p hnd]
    exact ⟨_, rfl⟩
  · rw [add_stance_keys, if_neg hm, load_history_keys p hnd,
      List.append_assoc]
    exact ⟨_, rfl⟩

theorem add_keys_nodup (name : String) (score : ℚ) (label date source
    : String) (ev : Option (List EvidenceItem)) (ps : Option ℚ)
    (pl : Option String) (bs : Option ℚ) (bsl : Option String) (p : History)
    (hnd : (keysOf p).Nodup) :
    (keysOf (add_stance name score label date source ev ps pl bs bsl p)).Nodup
    := by
  by_cases hm : name ∈ keysOf (load_history p)
  · rw [add_stance_keys, if_pos hm]
    exact load_keys_nodup p hnd
  · rw [add_stance_keys, if_neg hm]
    refine List.Nodup.append (load_keys_nodup p hnd)
      (List.nodup_singleton _) ?_
    intro a ha1 ha2
    rw [List.mem_singleton] at ha2
    subst ha2
    exact hm ha1

theorem add_mem_keys (name : String) (score : ℚ) (label date source
    : String) (ev : Option (List EvidenceItem)) (ps : Option ℚ)
    (pl : Option String) (bs : Option ℚ) (bsl : Option String) (p : History) :
    name ∈ keysOf (add_stance name score label date source ev ps pl bs bsl p)
    := by
  rw [add_stance_keys]
  by_cases hm : name ∈ keysOf (load_history p)
  · rw [if_pos hm]
    exact hm
  · rw [if_neg hm]
    simp

/-! ### C6: upsert idempotence -/

/-- C6: upsert idempotence — for every persisted store with well-formed
(duplicate-free) keys and every argument tuple, calling `add_stance`
twice with identical arguments produces a store identical after each
call, and in particular the stored entries for the (participant, date)
key are identical after the first and after the second call. -/
theorem claim_C6 (p : History) (hnd : (keysOf p).Nodup) (name : String)
    (score : ℚ) (label date source : String)
    (ev : Option (List EvidenceItem)) (ps : Option ℚ) (pl : Option String)
    (bs : Option ℚ) (bsl : Option String) :
    add_stance name score label date source ev ps pl bs bsl
        (add_stance name score label date source ev ps pl bs bsl p) =
      add_stance name score label date source ev ps pl bs bsl p ∧
    entriesAt
        (add_stance name score label date source ev ps pl bs bsl
          (add_stance name score label date source ev ps pl bs bsl p))
        name date =
      entriesAt (add_stance name score label date source ev ps pl bs bsl p)
        name date := by
  have hentry :
      (mkStanceEntry score label date source ev ps pl bs bsl).date = date :=
    rfl
  have hfill :
      filledB (mkStanceEntry score label date source ev ps pl bs bsl) = true :=
    rfl
  have hnd1 := add_keys_nodup name score label date source ev ps pl bs bsl p
    hnd
  obtain ⟨X1, hX1⟩ := add_keys_shape name score label date source ev ps pl bs
    bsl p hnd
  have hkload1 :
      keysOf (load_history
        (add_stance name score label date source ev ps pl bs bsl p)) =
      keysOf (add_stance name score label date source ev ps pl bs bsl p) :=
    load_keys_prefix_stable hnd1 X1 hX1
  have hmemA1 := add_mem_keys name score label date source ev ps pl bs bsl p
  have hk2 : keysOf (add_stance name score label date source ev ps pl bs bsl
        (add_stance name score label date source ev ps pl bs bsl p)) =
      keysOf (add_stance name score label date source ev ps pl bs bsl p) := by
    rw [add_stance_keys, hkload1, if_pos hmemA1]
  have hmain : add_stance name score label date source ev ps pl bs bsl
        (add_stance name score label date source ev ps pl bs bsl p) =
      add_stance name score label date source ev ps pl bs bsl p := by
    apply assoc_ext (add_keys_nodup name score label date source ev ps pl bs
      bsl _ hnd1) hk2
    intro n hn
    by_cases hname : n = name
    · subst hname
      rw [add_stance_lookup_self, add_stance_lookup_self]
      congr 1
      have hA1v : entriesFor
          (add_stance n score label date source ev ps pl bs bsl p) n =
          upsertList (mkStanceEntry score label date source ev ps pl bs bsl)
            date (mergedList (entriesFor SEED_DATA n) (entriesFor p n)) := by
        rw [entriesFor, add_stance_lookup_self, Option.getD_some,
          load_history_entriesFor p hnd n]
      rw [load_history_entriesFor _ hnd1 n, hA1v,
        load_history_entriesFor p hnd n]
      by_cases hsd :
          ((entriesFor SEED_DATA n).map (·.date)).contains date = true
      · rw [mergedList_upsert_seedDate hentry hsd]
      · rw [Bool.not_eq_true] at hsd
        rw [mergedList_upsert_nonseedDate hentry hfill hsd,
          upsert_idem_on hentry]
    · rw [add_stance_lookup_ne name score label date source ev ps pl bs bsl _
        hname, add_stance_lookup_ne name score label date source ev ps pl bs
        bsl p hname]
      have hnA1 : n ∈ keysOf
          (add_stance name score label date source ev ps pl bs bsl p) := by
        rw [← hk2]
        exact hn
      have hnload : n ∈ keysOf (load_history
          (add_stance name score label date source ev ps pl bs bsl p)) := by
        rw [hkload1]
        exact hnA1
      have hnloadp : n ∈ keysOf (load_history p) := by
        have := hnA1
        rw [add_stance_keys] at this
        by_cases hm : name ∈ keysOf (load_history p)
        · rw [if_pos hm] at this
          exact this
        · rw [if_neg hm] at this
          rcases List.mem_append.1 this with hh | hh
          · exact hh
          · rw [List.mem_singleton] at hh
            exact absurd hh hname
      rw [load_history_lookup_isSome _ hnload,
        lookup_eq_entriesFor ((lookup_isSome_iff _ n).2 hnloadp)]
      congr 1
      have hA1n : entriesFor
          (add_stance name score label date source ev ps pl bs bsl p) n =
          entriesFor (load_history p) n := by
        rw [entriesFor, add_stance_lookup_ne name score label date source ev
          ps pl bs bsl p hname, ← entriesFor]
      rw [load_history_entriesFor _ hnd1 n, hA1n,
        load_history_entriesFor p hnd n, mergedList_reload,
        ← load_history_entriesFor p hnd n]
  exact ⟨hmain, by rw [hmain]⟩

/-- C6 witness: the idempotence theorem applied to the empty persisted
store and a concrete upsert. -/
theorem claim_C6_witness :
    (keysOf ([] : History)).Nodup ∧
    add_stance "Jerome H. Powell" 4 "Hawkish" "2026-02-11" "live" none none
        none none none
        (add_stance "Jerome H. Powell" 4 "Hawkish" "2026-02-11" "live" none
          none none none none []) =
      add_stance "Jerome H. Powell" 4 "Hawkish" "2026-02-11" "live" none none
        none none none [] :=
  ⟨by decide,
    (claim_C6 [] (by decide) "Jerome H. Powell" 4 "Hawkish" "2026-02-11"
      "live" none none none none none).1⟩

/-! ### C1: store round-trip -/

theorem seed_entries_filled :
    ∀ kv ∈ SEED_DATA, ∀ e ∈ kv.2, filledB e = true := by decide

theorem seed_filled_for (n : String) :
    ∀ e ∈ entriesFor SEED_DATA n, filledB e = true := by
  intro e he
  rw [entriesFor] at he
  cases hl : lookupH SEED_DATA n with
  | none =>
    rw [hl] at he
    simp at he
  | some v =>
    rw [hl] at he
    exact seed_entries_filled (n, v) (lookup_mem hl) e he

/-- C1 counterexample: upserting a live Powell stance at 2025-12-15 (a
seed date) into the empty store stores the replaced entry (label
Hawkish), but a subsequent `load_history` returns the seed entry (label
Neutral) for that key, not the replaced entry — the round-trip fails as
claimed for keys whose date collides with seed data. -/
theorem claim_C1_cex :
    (entriesAt powellUpsert "Jerome H. Powell" "2025-12-15").map (·.label) =
      ["Hawkish"] ∧
    (entriesAt (load_history powellUpsert) "Jerome H. Powell"
      "2025-12-15").map (·.label) = ["Neutral"] ∧
    entriesAt (load_history powellUpsert) "Jerome H. Powell" "2025-12-15" ≠
      entriesAt powellUpsert "Jerome H. Powell" "2025-12-15" := by
  have hA : (entriesAt powellUpsert "Jerome H. Powell" "2025-12-15").map
      (·.label) = ["Hawkish"] := by decide
  have hB : (entriesAt (load_history powellUpsert) "Jerome H. Powell"
      "2025-12-15").map (·.label) = ["Neutral"] := by decide
  refine ⟨hA, hB, fun h => ?_⟩
  have h2 := congrArg (List.map (·.label)) h
  rw [hA, hB] at h2
  exact absurd h2 (by decide)

/-- C1 (amended): persisting then reloading reproduces, for every
(participant, date) key whose date does not occur in that participant's
seed series, exactly the persisted entries modulo backfill of legacy
fields; for a key whose date does occur in the seed series, reloading
returns the seed entries — the seed is the floor, so an entry replaced
by `add_stance` at a seed date is not reproduced. -/
theorem claim_C1 (p : History) (hnd : (keysOf p).Nodup) (n d : String) :
    if ((entriesFor SEED_DATA n).map (·.date)).contains d = true then
      dFilter d (entriesFor (load_history p) n) =
        dFilter d (entriesFor SEED_DATA n)
    else
      dFilter d (entriesFor (load_history p) n) =
        (dFilter d (entriesFor p n)).map backfill_entry := by
  rw [load_history_entriesFor p hnd n]
  by_cases hc : ((entriesFor SEED_DATA n).map (·.date)).contains d = true
  · rw [if_pos hc, dFilter_mergedList_seed hc]
    apply map_backfill_of_filled
    intro x hx
    exact seed_filled_for n x (mem_of_mem_dFilter hx)
  · rw [if_neg hc]
    rw [Bool.not_eq_true] at hc
    rw [dFilter_mergedList_nonseed hc]

/-- C1 witness: the amended round-trip theorem applied to the empty
persisted store at the colliding Powell seed key. -/
theorem claim_C1_witness :
    (keysOf ([] : History)).Nodup ∧
    (if ((entriesFor SEED_DATA "Jerome H. Powell").map
          (·.date)).contains "2025-12-15" = true then
      dFilter "2025-12-15" (entriesFor (load_history []) "Jerome H. Powell") =
        dFilter "2025-12-15" (entriesFor SEED_DATA "Jerome H. Powell")
    else
      dFilter "2025-12-15" (entriesFor (load_history []) "Jerome H. Powell") =
        (dFilter "2025-12-15" (entriesFor ([] : History)
          "Jerome H. Powell")).map backfill_entry) :=
  ⟨by decide, claim_C1 [] (by decide) "Jerome H. Powell" "2025-12-15"⟩

/-! ### C2: blackout-window arithmetic -/

/-- C2 counterexample: the blackout invariant "decision date minus
blackout start is at least 14 days" is false on the calendar — for the
January 2025 meeting (a Tuesday start) the distance is 11 days. -/
theorem claim_C2_cex :
    ¬ (∀ m ∈ MEETINGS, 14 ≤ toOrdinal m.end_date - blackout_start m) := by
  intro h
  have h1 := h firstMeeting2025 (List.mem_cons_self _ _)
  exact absurd h1 (by decide)

/-- C2 (amended): for every meeting in the calendar the decision date
minus the blackout start is exactly 11 days (in particular at least 11,
not at least 14): every meeting starts on a Tuesday, so the second
Saturday before the start date is 10 days before it and 11 days before
the decision date. -/
theorem claim_C2 :
    ∀ m ∈ MEETINGS, toOrdinal m.end_date - blackout_start m = 11 := by
  decide

/-- C2 witness: the amended blackout arithmetic at the first 2025
meeting. -/
theorem claim_C2_witness :
    toOrdinal firstMeeting2025.end_date - blackout_start firstMeeting2025 = 11
    := claim_C2 firstMeeting2025 (List.mem_cons_self _ _)

/-! ### C7, C9, C10: the implied-rate-action mapper -/

theorem scan_none_of {rows : List ActionThreshold} {q : ℚ}
    (h : ∀ r ∈ rows, ¬(r.min_s ≤ q ∧ q < r.max_s)) :
    scanThresholds rows q = none := by
  induction rows with
  | nil => rfl
  | cons r rest ih =>
    simp only [scanThresholds]
    rw [if_neg (h r (List.mem_cons_self _ _))]
    exact ih (fun x hx => h x (List.mem_cons_of_mem _ hx))

theorem implied_fields {q : ℚ} {cr : Option (ℚ × ℚ)}
    {t : String × String × Nat}
    (hscan : scanThresholds ACTION_THRESHOLDS q = some t) :
    (implied_rate_action cr q).action = t.1 ∧
    (implied_rate_action cr q).direction = t.2.1 ∧
    (implied_rate_action cr q).magnitude_bp = t.2.2 := by
  simp only [implied_rate_action, hscan]
  simp

theorem scan_eval_row1 {q : ℚ} (h1 : (-5.0 : ℚ) ≤ q) (h2 : q < -3.5) :
    scanThresholds ACTION_THRESHOLDS q = some ("Cut 50bp", "easing", 50) := by
  simp only [ACTION_THRESHOLDS, scanThresholds]
  rw [if_pos ⟨h1, h2⟩]

theorem scan_eval_row2 {q : ℚ} (h1 : (-3.5 : ℚ) ≤ q) (h2 : q < -2.0) :
    scanThresholds ACTION_THRESHOLDS q = some ("Cut 25bp", "easing", 25) := by
  simp only [ACTION_THRESHOLDS, scanThresholds]
  rw [if_neg (by rintro ⟨g1, g2⟩; linarith)]
  rw [if_pos ⟨h1, h2⟩]

theorem scan_eval_row3 {q : ℚ} (h1 : (-2.0 : ℚ) ≤ q) (h2 : q < -0.5) :
    scanThresholds ACTION_THRESHOLDS q = some ("Lean Cut", "easing", 25) := by
  simp only [ACTION_THRESHOLDS, scanThresholds]
  rw [if_neg (by rintro ⟨g1, g2⟩; linarith)]
  rw [if_neg (by rintro ⟨g1, g2⟩; linarith)]
  rw [if_pos ⟨h1, h2⟩]

theorem scan_eval_row4 {q : ℚ} (h1 : (-0.5 : ℚ) ≤ q) (h2 : q < 0.5) :
    scanThresholds ACTION_THRESHOLDS q = some ("Hold", "neutral", 0) := by
  simp only [ACTION_THRESHOLDS, scanThresholds]
  rw [if_neg (by rintro ⟨g1, g2⟩; linarith)]
  rw [if_neg (by rintro ⟨g1, g2⟩; linarith)]
  rw [if_neg (by rintro ⟨g1, g2⟩; linarith)]
  rw [if_pos ⟨h1, h2⟩]

theorem scan_eval_row5 {q : ℚ} (h1 : (0.5 : ℚ) ≤ q) (h2 : q < 2.0) :
    scanThresholds ACTION_THRESHOLDS q = some ("Lean Hike", "tightening", 25) := by
  simp only [ACTION_THRESHOLDS, scanThresholds]
  rw [if_neg (by rintro ⟨g1, g2⟩; linarith)]
  rw [if_neg (by rintro ⟨g1, g2⟩; linarith)]
  rw [if_neg (by rintro ⟨g1, g2⟩; linarith)]
  rw [if_neg (by rintro ⟨g1, g2⟩; linarith)]
  rw [if_pos ⟨h1, h2⟩]

theorem scan_eval_row6 {q : ℚ} (h1 : (2.0 : ℚ) ≤ q) (h2 : q < 3.5) :
    scanThresholds ACTION_THRESHOLDS q = some ("Hike 25bp", "tightening", 25) := by
  simp only [ACTION_THRESHOLDS, scanThresholds]
  rw [if_neg (by rintro ⟨g1, g2⟩; linarith)]
  rw [if_neg (by rintro ⟨g1, g2⟩; linarith)]
  rw [if_neg (by rintro ⟨g1, g2⟩; linarith)]
  rw [if_neg (by rintro ⟨g1, g2⟩; linarith)]
  rw [if_neg (by rintro ⟨g1, g2⟩; linarith)]
  rw [if_pos ⟨h1, h2⟩]

theorem scan_eval_row7 {q : ℚ} (h1 : (3.5 : ℚ) ≤ q) (h2 : q < 5.0) :
    scanThresholds ACTION_THRESHOLDS q = some ("Hike 50bp", "tightening", 50) := by
  simp only [ACTION_THRESHOLDS, scanThresholds]
  rw [if_neg (by rintro ⟨g1, g2⟩; linarith)]
  rw [if_neg (by rintro ⟨g1, g2⟩; linarith)]
  rw [if_neg (by rintro ⟨g1, g2⟩; linarith)]
  rw [if_neg (by rintro ⟨g1, g2⟩; linarith)]
  rw [if_neg (by rintro ⟨g1, g2⟩; linarith)]
  rw [if_neg (by rintro ⟨g1, g2⟩; linarith)]
  rw [if_pos ⟨h1, h2⟩]

/-- C10: below the action table's lower edge the mapper degrades to
Hold — for every weighted score strictly less than -5.0 and every
current-rate state, `implied_rate_action` returns action "Hold" with
direction "neutral", magnitude 0 bp, and a null projected rate; there
is no lower-edge counterpart of the upper-edge rule. -/
theorem claim_C10 (q : ℚ) (cr : Option (ℚ × ℚ)) (h : q < -5.0) :
    (implied_rate_action cr q).action = "Hold" ∧
    (implied_rate_action cr q).direction = "neutral" ∧
    (implied_rate_action cr q).magnitude_bp = 0 ∧
    (implied_rate_action cr q).projected_rate = none := by
  have hscan : scanThresholds ACTION_THRESHOLDS q = none := by
    apply scan_none_of
    intro r hr
    simp only [ACTION_THRESHOLDS, List.mem_cons, List.not_mem_nil, or_false]
      at hr
    rcases hr with rfl | rfl | rfl | rfl | rfl | rfl | rfl <;>
      (rintro ⟨g1, g2⟩; linarith)
  simp only [implied_rate_action, hscan]
  rw [if_neg (by linarith : ¬ q ≥ (3.5 : ℚ))]
  refine ⟨rfl, rfl, rfl, ?_⟩
  cases cr with
  | none => rfl
  | some r => simp

/-- C10 witness: the lower-edge behaviour at score -6 with a known
current rate. -/
theorem claim_C10_witness :
    (implied_rate_action (some (4.25, 4.50)) (-6)).action = "Hold" ∧
    (implied_rate_action (some (4.25, 4.50)) (-6)).direction = "neutral" ∧
    (implied_rate_action (some (4.25, 4.50)) (-6)).magnitude_bp = 0 ∧
    (implied_rate_action (some (4.25, 4.50)) (-6)).projected_rate = none :=
  claim_C10 (-6) (some (4.25, 4.50)) (by norm_num)

/-- C9: the confidence heuristic of `implied_rate_action` assigns
"high" when the absolute score is below 0.5, "moderate" when it is in
[0.5, 2.0), and "high" again when it is at least 2.0 — the
non-monotonic bands as specified — and it never returns "low". -/
theorem claim_C9 (q : ℚ) (cr : Option (ℚ × ℚ)) :
    (|q| < 0.5 → (implied_rate_action cr q).confidence = "high") ∧
    ((0.5 : ℚ) ≤ |q| → |q| < 2.0 →
      (implied_rate_action cr q).confidence = "moderate") ∧
    ((2.0 : ℚ) ≤ |q| → (implied_rate_action cr q).confidence = "high") ∧
    (implied_rate_action cr q).confidence ≠ "low" := by
  have hconf : (implied_rate_action cr q).confidence =
      (if |q| < 0.5 then "high"
       else if |q| < 1.0 then "moderate"
       else if |q| < 2.0 then "moderate"
       else "high") := rfl
  refine ⟨?_, ?_, ?_, ?_⟩
  · intro h
    rw [hconf, if_pos h]
  · intro h1 h2
    rw [hconf, if_neg (not_lt.2 h1)]
    by_cases hm : |q| < 1.0
    · rw [if_pos hm]
    · rw [if_neg hm, if_pos h2]
  · intro h
    rw [hconf, if_neg (not_lt.2 (le_trans (by norm_num) h)),
      if_neg (not_lt.2 (le_trans (by norm_num) h)), if_neg (not_lt.2 h)]
  · rw [hconf]
    split_ifs <;> simp

/-- C9 witness: the three bands at scores 0, 1 and 3. -/
theorem claim_C9_witness :
    (implied_rate_action none 0).confidence = "high" ∧
    (implied_rate_action none 1).confidence = "moderate" ∧
    (implied_rate_action none 3).confidence = "high" ∧
    (implied_rate_action none 1).confidence ≠ "low" :=
  ⟨(claim_C9 0 none).1 (by norm_num),
   (claim_C9 1 none).2.1 (by norm_num) (by norm_num),
   (claim_C9 3 none).2.2.1 (by norm_num),
   (claim_C9 1 none).2.2.2⟩

/-- C7: action-table totality — the ordered threshold table partitions
[-5, 5) into half-open intervals with no gaps and no overlaps (every
score in [-5, 5) lies in exactly one row), `implied_rate_action`
applies the matching row's label, direction and magnitude, and for a
score at or beyond the table's upper edge it applies the most extreme
tightening row ("Hike 50bp", tightening, 50 bp). -/
theorem claim_C7 :
    (∀ q : ℚ, -5 ≤ q → q < 5 →
      ∃! r : ActionThreshold,
        r ∈ ACTION_THRESHOLDS ∧ r.min_s ≤ q ∧ q < r.max_s) ∧
    (∀ (q : ℚ) (cr : Option (ℚ × ℚ)) (r : ActionThreshold),
      r ∈ ACTION_THRESHOLDS → r.min_s ≤ q → q < r.max_s →
      (implied_rate_action cr q).action = r.action_label ∧
      (implied_rate_action cr q).direction = r.direction ∧
      (implied_rate_action cr q).magnitude_bp = r.magnitude_bp) ∧
    (∀ (q : ℚ) (cr : Option (ℚ × ℚ)), 5 ≤ q →
      (implied_rate_action cr q).action = "Hike 50bp" ∧
      (implied_rate_action cr q).direction = "tightening" ∧
      (implied_rate_action cr q).magnitude_bp = 50) := by
  have hmem : ∀ r : ActionThreshold, r ∈ ACTION_THRESHOLDS ↔
      (r = ⟨-5.0, -3.5, "Cut 50bp", "easing", 50⟩ ∨
       r = ⟨-3.5, -2.0, "Cut 25bp", "easing", 25⟩ ∨
       r = ⟨-2.0, -0.5, "Lean Cut", "easing", 25⟩ ∨
       r = ⟨-0.5, 0.5, "Hold", "neutral", 0⟩ ∨
       r = ⟨0.5, 2.0, "Lean Hike", "tightening", 25⟩ ∨
       r = ⟨2.0, 3.5, "Hike 25bp", "tightening", 25⟩ ∨
       r = ⟨3.5, 5.0, "Hike 50bp", "tightening", 50⟩) := by
    intro r
    simp [ACTION_THRESHOLDS]
  refine ⟨?_, ?_, ?_⟩
  · intro q hlo hhi
    by_cases h1 : q < -3.5
    · refine ⟨⟨-5.0, -3.5, "Cut 50bp", "easing", 50⟩,
        ⟨(hmem _).2 (by norm_num), by norm_num; linarith, h1⟩, ?_⟩
      rintro r ⟨hr, hr1, hr2⟩
      rcases (hmem r).1 hr with rfl | rfl | rfl | rfl | rfl | rfl | rfl <;>
        first | rfl | (exfalso; dsimp at hr1 hr2; linarith)
    · by_cases h2 : q < -2.0
      · refine ⟨⟨-3.5, -2.0, "Cut 25bp", "easing", 25⟩,
          ⟨(hmem _).2 (by norm_num), by norm_num; linarith, h2⟩, ?_⟩
        rintro r ⟨hr, hr1, hr2⟩
        rcases (hmem r).1 hr with rfl | rfl | rfl | rfl | rfl | rfl | rfl <;>
          first | rfl | (exfalso; dsimp at hr1 hr2; linarith)
      · by_cases h3 : q < -0.5
        · refine ⟨⟨-2.0, -0.5, "Lean Cut", "easing", 25⟩,
            ⟨(hmem _).2 (by norm_num), by norm_num; linarith, h3⟩, ?_⟩
          rintro r ⟨hr, hr1, hr2⟩
          rcases (hmem r).1 hr with rfl | rfl | rfl | rfl | rfl | rfl | rfl <;>
            first | rfl | (exfalso; dsimp at hr1 hr2; linarith)
        · by_cases h4 : q < 0.5
          · refine ⟨⟨-0.5, 0.5, "Hold", "neutral", 0⟩,
              ⟨(hmem _).2 (by norm_num), by norm_num; linarith, h4⟩, ?_⟩
            rintro r ⟨hr, hr1, hr2⟩
            rcases (hmem r).1 hr with rfl | rfl | rfl | rfl | rfl | rfl | rfl
              <;> first | rfl | (exfalso; dsimp at hr1 hr2; linarith)
          · by_cases h5 : q < 2.0
            · refine ⟨⟨0.5, 2.0, "Lean Hike", "tightening", 25⟩,
                ⟨(hmem _).2 (by norm_num), by norm_num; linarith, h5⟩, ?_⟩
              rintro r ⟨hr, hr1, hr2⟩
              rcases (hmem r).1 hr with
                rfl | rfl | rfl | rfl | rfl | rfl | rfl <;>
                first | rfl | (exfalso; dsimp at hr1 hr2; linarith)
            · by_cases h6 : q < 3.5
              · refine ⟨⟨2.0, 3.5, "Hike 25bp", "tightening", 25⟩,
                  ⟨(hmem _).2 (by norm_num), by norm_num; linarith, h6⟩, ?_⟩
                rintro r ⟨hr, hr1, hr2⟩
                rcases (hmem r).1 hr with
                  rfl | rfl | rfl | rfl | rfl | rfl | rfl <;>
                  first | rfl | (exfalso; dsimp at hr1 hr2; linarith)
              · refine ⟨⟨3.5, 5.0, "Hike 50bp", "tightening", 50⟩,
                  ⟨(hmem _).2 (by norm_num), by norm_num; linarith,
                    by norm_num; linarith⟩, ?_⟩
                rintro r ⟨hr, hr1, hr2⟩
                rcases (hmem r).1 hr with
                  rfl | rfl | rfl | rfl | rfl | rfl | rfl <;>
                  first | rfl | (exfalso; dsimp at hr1 hr2; linarith)
  · intro q cr r hr hr1 hr2
    rcases (hmem r).1 hr with rfl | rfl | rfl | rfl | rfl | rfl | rfl <;>
      dsimp at hr1 hr2 ⊢
    · exact implied_fields (scan_eval_row1 hr1 hr2)
    · exact implied_fields (scan_eval_row2 hr1 hr2)
    · exact implied_fields (scan_eval_row3 hr1 hr2)
    · exact implied_fields (scan_eval_row4 hr1 hr2)
    · exact implied_fields (scan_eval_row5 hr1 hr2)
    · exact implied_fields (scan_eval_row6 hr1 hr2)
    · exact implied_fields (scan_eval_row7 hr1 hr2)
  · intro q cr h
    have hscan : scanThresholds ACTION_THRESHOLDS q = none := by
      apply scan_none_of
      intro r hr
      rcases (hmem r).1 hr with rfl | rfl | rfl | rfl | rfl | rfl | rfl <;>
        (rintro ⟨g1, g2⟩; dsimp at g1 g2; linarith)
    simp only [implied_rate_action, hscan]
    rw [if_pos (by linarith : q ≥ (3.5 : ℚ))]
    exact ⟨rfl, rfl, rfl⟩

/-- C7 witness: the unique-row property at score 0 (the Hold row), the
row application at score 0, and the upper-edge behaviour at score 6. -/
theorem claim_C7_witness :
    (∃! r : ActionThreshold,
      r ∈ ACTION_THRESHOLDS ∧ r.min_s ≤ (0 : ℚ) ∧ (0 : ℚ) < r.max_s) ∧
    (implied_rate_action none 0).action = "Hold" ∧
    (implied_rate_action none 6).action = "Hike 50bp" ∧
    (implied_rate_action none 6).magnitude_bp = 50 :=
  ⟨claim_C7.1 0 (by norm_num) (by norm_num),
   (claim_C7.2.1 0 none ⟨-0.5, 0.5, "Hold", "neutral", 0⟩
     (by simp [ACTION_THRESHOLDS]) (by norm_num) (by norm_num)).1,
   (claim_C7.2.2 6 none (by norm_num)).1,
   (claim_C7.2.2 6 none (by norm_num)).2.2⟩

/-! ### C8: the weighted committee signal -/

theorem rhe_bounds (q : ℚ) :
    q - 1/2 ≤ (roundHalfEven q : ℚ) ∧ (roundHalfEven q : ℚ) ≤ q + 1/2 := by
  have hf1 : (⌊q⌋ : ℚ) ≤ q := Int.floor_le q
  have hf2 : q - 1 < (⌊q⌋ : ℚ) := Int.sub_one_lt_floor q
  unfold roundHalfEven
  dsimp only
  split_ifs with h1 h2 h3 <;> constructor <;> push_cast <;> linarith

theorem round3_bounds (q : ℚ) :
    q - 1/2000 ≤ round3 q ∧ round3 q ≤ q + 1/2000 := by
  obtain ⟨h1, h2⟩ := rhe_bounds (q * 1000)
  unfold round3
  constructor <;> linarith

theorem milli_le_round3 {lo q : ℚ} {k : ℤ} (hlo : lo = (k : ℚ) / 1000)
    (h : lo ≤ q) : lo ≤ round3 q := by
  have hr : round3 q = ((roundHalfEven (q * 1000) : ℤ) : ℚ) / 1000 := rfl
  have hb := (round3_bounds q).1
  have hmk : (k : ℚ) / 1000 - 1 / 2000 ≤
      ((roundHalfEven (q * 1000) : ℤ) : ℚ) / 1000 := by
    rw [← hr]
    linarith [hlo ▸ h]
  have hint : 2 * k - 1 ≤ 2 * roundHalfEven (q * 1000) := by
    have hq : ((2 * k - 1 : ℤ) : ℚ) ≤ ((2 * roundHalfEven (q * 1000) : ℤ) : ℚ)
      := by
      push_cast
      linarith
    exact_mod_cast hq
  have hkm : k ≤ roundHalfEven (q * 1000) := by omega
  have hkmq : (k : ℚ) ≤ (roundHalfEven (q * 1000) : ℚ) := by exact_mod_cast hkm
  rw [hr, hlo]
  linarith

theorem round3_le_milli {hi q : ℚ} {k : ℤ} (hhi : hi = (k : ℚ) / 1000)
    (h : q ≤ hi) : round3 q ≤ hi := by
  have hr : round3 q = ((roundHalfEven (q * 1000) : ℤ) : ℚ) / 1000 := rfl
  have hb := (round3_bounds q).2
  have hmk : ((roundHalfEven (q * 1000) : ℤ) : ℚ) / 1000 ≤
      (k : ℚ) / 1000 + 1 / 2000 := by
    rw [← hr]
    linarith [hhi ▸ h]
  have hint : 2 * roundHalfEven (q * 1000) ≤ 2 * k + 1 := by
    have hq : ((2 * roundHalfEven (q * 1000) : ℤ) : ℚ) ≤ ((2 * k + 1 : ℤ) : ℚ)
      := by
      push_cast
      linarith
    exact_mod_cast hq
  have hkm : roundHalfEven (q * 1000) ≤ k := by omega
  have hkmq : (roundHalfEven (q * 1000) : ℚ) ≤ (k : ℚ) := by exact_mod_cast hkm
  rw [hr, hhi]
  linarith

theorem participant_weight_pos (p : Participant) :
    0 < participant_weight p := by
  unfold participant_weight
  split_ifs <;> norm_num

theorem total_weight_pos :
    (0 : ℚ) < (PARTICIPANTS.map participant_weight).sum := by
  apply List.sum_pos
  · intro x hx
    rcases List.mem_map.1 hx with ⟨p, _, rfl⟩
    exact participant_weight_pos p
  · unfold PARTICIPANTS
    simp

/-- C8: weighted-signal bound — for the fixed positive role weights and
any store snapshot (any latest-stance resolution), whenever `lo` and
`hi` are 3-decimal values bounding every participant's resolved score
(as the program's resolved minimum and maximum always are, all stored
scores being rounded to 3 decimals), the `weighted_score` of
`compute_weighted_signal` lies within `[lo, hi]`; the engine over the
roster is exactly `compute_weighted_signal_over` applied to
`get_latest_stance`; and in the two-participant instance with weights
3.0 and 1.0 and scores +2 and -2 the weighted score is
(3·2 + 1·(−2))/4 = 1.0. -/
theorem claim_C8 :
    (∀ (latest : String → Option StanceEntry) (key : ScoreKey) (lo hi : ℚ)
        (klo khi : ℤ),
      lo = (klo : ℚ) / 1000 → hi = (khi : ℚ) / 1000 →
      (∀ p ∈ PARTICIPANTS, lo ≤ resolveScore latest key p) →
      (∀ p ∈ PARTICIPANTS, resolveScore latest key p ≤ hi) →
      lo ≤ (compute_weighted_signal_over PARTICIPANTS latest
        key).weighted_score ∧
      (compute_weighted_signal_over PARTICIPANTS latest key).weighted_score ≤
        hi) ∧
    (∀ (p : History) (key : ScoreKey),
      compute_weighted_signal p key =
        compute_weighted_signal_over PARTICIPANTS (get_latest_stance p) key) ∧
    (compute_weighted_signal_over
      [⟨"A", "Chair", "X", true, true, 0, 0⟩,
       ⟨"B", "Governor", "X", true, true, 0, 0⟩]
      (fun n => if n = "A"
        then some (seedE "2026-01-15" 2 "Hawkish" 2 "Hawkish" 0 "Neutral")
        else some (seedE "2026-01-15" (-2) "Dovish" (-2) "Dovish" 0 "Neutral"))
      ScoreKey.score).weighted_score = 1 := by
  refine ⟨?_, fun p key => rfl, ?_⟩
  · intro latest key lo hi klo khi hlo hhi hblo hbhi
    have htw := total_weight_pos
    have hws : (compute_weighted_signal_over PARTICIPANTS latest
        key).weighted_score =
        round3 ((PARTICIPANTS.map
            (fun p => resolveScore latest key p * participant_weight p)).sum /
          (PARTICIPANTS.map participant_weight).sum) := by
      simp only [compute_weighted_signal_over]
      rw [if_pos htw.ne']
    have hS_lo : lo * (PARTICIPANTS.map participant_weight).sum ≤
        (PARTICIPANTS.map
          (fun p => resolveScore latest key p * participant_weight p)).sum := by
      rw [← List.sum_map_mul_left]
      apply List.sum_le_sum
      intro p hp
      exact mul_le_mul_of_nonneg_right (hblo p hp)
        (participant_weight_pos p).le
    have hS_hi : (PARTICIPANTS.map
          (fun p => resolveScore latest key p * participant_weight p)).sum ≤
        hi * (PARTICIPANTS.map participant_weight).sum := by
      rw [← List.sum_map_mul_left]
      apply List.sum_le_sum
      intro p hp
      exact mul_le_mul_of_nonneg_right (hbhi p hp)
        (participant_weight_pos p).le
    rw [hws]
    constructor
    · exact milli_le_round3 hlo ((le_div_iff₀ htw).2 hS_lo)
    · exact round3_le_milli hhi ((div_le_iff₀ htw).2 hS_hi)
  · have h1 : round3 1 = 1 := by
      unfold round3 roundHalfEven
      norm_num
    simp only [compute_weighted_signal_over, resolveScore, entryScoreGet,
      participant_weight, seedE, List.map_cons, List.map_nil, List.sum_cons,
      List.sum_nil, List.length_cons, List.length_nil]
    simp only [show (("B" : String) = "A") ↔ False from
        iff_false_intro (by decide),
      show (("Governor" : String) = "Chair") ↔ False from
        iff_false_intro (by decide),
      show (("Governor" : String) = "Vice Chair") ↔ False from
        iff_false_intro (by decide),
      show (("Governor" : String) = "Vice Chair for Supervision") ↔ False from
        iff_false_intro (by decide),
      show (("A" : String) = "A") ↔ True from iff_true_intro rfl,
      show (("Chair" : String) = "Chair") ↔ True from iff_true_intro rfl,
      if_true, if_false]
    norm_num [h1]

/-- C8 witness: the bound applied to a snapshot in which every
participant's latest stance has score 2, with lo = hi = 2, and the
two-participant example instance. -/
theorem claim_C8_witness :
    ((2 : ℚ) ≤ (compute_weighted_signal_over PARTICIPANTS
        (fun _ => some (seedE "2026-01-15" 2 "Hawkish" 2 "Hawkish" 0
          "Neutral"))
        ScoreKey.score).weighted_score ∧
      (compute_weighted_signal_over PARTICIPANTS
        (fun _ => some (seedE "2026-01-15" 2 "Hawkish" 2 "Hawkish" 0
          "Neutral"))
        ScoreKey.score).weighted_score ≤ 2) ∧
    (compute_weighted_signal_over
      [⟨"A", "Chair", "X", true, true, 0, 0⟩,
       ⟨"B", "Governor", "X", true, true, 0, 0⟩]
      (fun n => if n = "A"
        then some (seedE "2026-01-15" 2 "Hawkish" 2 "Hawkish" 0 "Neutral")
        else some (seedE "2026-01-15" (-2) "Dovish" (-2) "Dovish" 0 "Neutral"))
      ScoreKey.score).weighted_score = 1 :=
  ⟨claim_C8.1 (fun _ => some (seedE "2026-01-15" 2 "Hawkish" 2 "Hawkish" 0
      "Neutral")) ScoreKey.score 2 2 2000 2000 (by norm_num) (by norm_num)
      (fun p _ => le_refl 2) (fun p _ => le_refl 2),
   claim_C8.2.2⟩

/-! ### Keyword classifier: per-dimension formula and empty input -/

theorem dimensionScore_zero (normalized : List Char)
    (terms : List (String × ℚ))
    (h : ∀ t ∈ terms, occursCount t.1 normalized = 0) :
    dimensionScore normalized terms = (0, []) := by
  induction terms with
  | nil => rfl
  | cons tw rest ih =>
    have hc : occursCount tw.1 normalized = 0 :=
      h tw (List.mem_cons_self tw rest)
    have hr := ih (fun t ht => h t (List.mem_cons_of_mem tw ht))
    simp [dimensionScore, hc, hr]

theorem score_dimension_zero (normalized : List Char)
    (hterms dterms : List (String × ℚ))
    (hh : ∀ t ∈ hterms, occursCount t.1 normalized = 0)
    (hd : ∀ t ∈ dterms, occursCount t.1 normalized = 0) :
    score_dimension normalized hterms dterms = (0, 0, [], []) := by
  simp [score_dimension, dimensionScore_zero normalized hterms hh,
    dimensionScore_zero normalized dterms hd]

/-- With no phrase of any of the four dictionaries occurring in the
normalized text, the keyword classifier returns the all-zero Neutral
result (the secondary fields keep their all-zero Neutral defaults). -/
theorem classify_text_keyword_zero (text : String)
    (h : ∀ t ∈ POLICY_HAWKISH_TERMS ++ POLICY_DOVISH_TERMS ++
        BS_HAWKISH_TERMS ++ BS_DOVISH_TERMS,
      occursCount t.1 (normalizeText text) = 0) :
    classify_text_keyword text =
      { score := 0, label := "Neutral", confidence := 0,
        hawkish_matches := [], dovish_matches := [],
        snippet_count := 1 } := by
  have hph : ∀ t ∈ POLICY_HAWKISH_TERMS,
      occursCount t.1 (normalizeText text) = 0 :=
    fun t ht => h t (by simp [ht])
  have hpd : ∀ t ∈ POLICY_DOVISH_TERMS,
      occursCount t.1 (normalizeText text) = 0 :=
    fun t ht => h t (by simp [ht])
  have hbh : ∀ t ∈ BS_HAWKISH_TERMS,
      occursCount t.1 (normalizeText text) = 0 :=
    fun t ht => h t (by simp [ht])
  have hbd : ∀ t ∈ BS_DOVISH_TERMS,
      occursCount t.1 (normalizeText text) = 0 :=
    fun t ht => h t (by simp [ht])
  have hp := score_dimension_zero (normalizeText text) _ _ hph hpd
  have hb := score_dimension_zero (normalizeText text) _ _ hbh hbd
  simp [classify_text_keyword, hp, hb]

/-- C5: classifying the empty string, or any text in which no
dictionary phrase occurs, yields the all-zero Neutral result
(overall, policy and balance-sheet scores 0, confidence 0, labels
Neutral, no matches) with `snippet_count = 1`; classifying the empty
snippet list yields the same all-zero Neutral result with
`snippet_count = 0`.  The embedding is total, so no exception can
arise. -/
theorem claim_C5 :
    (∀ text : String,
      (∀ t ∈ POLICY_HAWKISH_TERMS ++ POLICY_DOVISH_TERMS ++
          BS_HAWKISH_TERMS ++ BS_DOVISH_TERMS,
        occursCount t.1 (normalizeText text) = 0) →
      classify_text_keyword text =
        { score := 0, label := "Neutral", confidence := 0,
          hawkish_matches := [], dovish_matches := [],
          snippet_count := 1 }) ∧
    classify_text_keyword "" =
      { score := 0, label := "Neutral", confidence := 0,
        hawkish_matches := [], dovish_matches := [],
        snippet_count := 1 } ∧
    classify_snippets_keyword [] =
      { score := 0, label := "Neutral", confidence := 0,
        hawkish_matches := [], dovish_matches := [],
        snippet_count := 0 } :=
  ⟨classify_text_keyword_zero,
   classify_text_keyword_zero "" (by decide),
   rfl⟩

/-- C5 witness: a concrete phrase-free nonempty text classifies to the
all-zero Neutral result. -/
theorem claim_C5_witness :
    classify_text_keyword "hello world" =
      { score := 0, label := "Neutral", confidence := 0,
        hawkish_matches := [], dovish_matches := [],
        snippet_count := 1 } :=
  claim_C5.1 "hello world" (by decide)

theorem dimensionScore_fst (normalized : List Char)
    (terms : List (String × ℚ)) :
    (dimensionScore normalized terms).1 = termSum normalized terms := by
  induction terms with
  | nil => rfl
  | cons tw rest ih =>
    have hsum : termSum normalized (tw :: rest) =
        tw.2 * (occursCount tw.1 normalized : ℚ) +
          termSum normalized rest := by
      simp [termSum]
    by_cases hc : 0 < occursCount tw.1 normalized
    · simp [dimensionScore, hc, hsum, ih]
    · have hc0 : occursCount tw.1 normalized = 0 :=
        Nat.eq_zero_of_not_pos hc
      simp [dimensionScore, hc0, hsum, ih]

theorem termSum_nonneg (normalized : List Char)
    (terms : List (String × ℚ)) (hw : ∀ t ∈ terms, 0 ≤ t.2) :
    0 ≤ termSum normalized terms := by
  unfold termSum
  refine List.sum_nonneg ?_
  intro x hx
  rw [List.mem_map] at hx
  obtain ⟨t, ht, rfl⟩ := hx
  exact mul_nonneg (hw t ht) (Nat.cast_nonneg _)

/-- C4: for every normalized text and every pair of nonnegatively
weighted dictionaries, writing `hawk` and `dove` for the weighted
occurrence sums, the dimension yields `(0, 0, [], [])` when
`hawk + dove = 0`, and otherwise a raw score equal to
`5·(hawk − dove)/(hawk + dove)`, always within `[-5, 5]`, with
confidence `min ((hawk + dove)/5) 1`; concretely, with hawkish
dictionary `{"rate hike": 1.0}` the input "Officials signaled a rate
hike is likely" scores raw 5 with confidence 1/5 = 0.2 and the score
5 labels Hawkish. -/
theorem claim_C4 :
    (∀ (normalized : List Char) (hterms dterms : List (String × ℚ)),
      (∀ t ∈ hterms, 0 ≤ t.2) → (∀ t ∈ dterms, 0 ≤ t.2) →
      (termSum normalized hterms + termSum normalized dterms = 0 →
        score_dimension normalized hterms dterms = (0, 0, [], [])) ∧
      (termSum normalized hterms + termSum normalized dterms ≠ 0 →
        (score_dimension normalized hterms dterms).1 =
          5 * (termSum normalized hterms - termSum normalized dterms) /
            (termSum normalized hterms + termSum normalized dterms) ∧
        -5 ≤ (score_dimension normalized hterms dterms).1 ∧
        (score_dimension normalized hterms dterms).1 ≤ 5 ∧
        (score_dimension normalized hterms dterms).2.1 =
          min ((termSum normalized hterms + termSum normalized dterms) / 5)
            1)) ∧
    score_dimension (normalizeText "Officials signaled a rate hike is likely")
        [("rate hike", 1)] [] = (5, 1/5, ["rate hike"], []) ∧
    score_label 5 = "Hawkish" := by
  refine ⟨?_, ?_, ?_⟩
  · intro normalized hterms dterms hwh hwd
    have hh := dimensionScore_fst normalized hterms
    have hd := dimensionScore_fst normalized dterms
    constructor
    · intro h0
      simp [score_dimension, hh, hd, h0]
    · intro hne
      have hhn := termSum_nonneg normalized hterms hwh
      have hdn := termSum_nonneg normalized dterms hwd
      have htp : 0 < termSum normalized hterms + termSum normalized dterms :=
        lt_of_le_of_ne (by linarith) (Ne.symm hne)
      have hsd : score_dimension normalized hterms dterms =
          (5 * (termSum normalized hterms - termSum normalized dterms) /
              (termSum normalized hterms + termSum normalized dterms),
            min ((termSum normalized hterms + termSum normalized dterms) / 5)
              1,
            (dimensionScore normalized hterms).2,
            (dimensionScore normalized dterms).2) := by
        simp [score_dimension, hh, hd, hne]
      refine ⟨by rw [hsd], ?_, ?_, by rw [hsd]⟩
      · rw [hsd]
        show -5 ≤ 5 * (termSum normalized hterms - termSum normalized dterms) /
          (termSum normalized hterms + termSum normalized dterms)
        rw [le_div_iff₀ htp]
        linarith
      · rw [hsd]
        show 5 * (termSum normalized hterms - termSum normalized dterms) /
          (termSum normalized hterms + termSum normalized dterms) ≤ 5
        rw [div_le_iff₀ htp]
        linarith
  · have hc : occursCount "rate hike"
        (normalizeText "Officials signaled a rate hike is likely") = 1 := by
      decide
    simp [score_dimension, dimensionScore, hc]
    norm_num [min_def]
  · rw [score_label, if_pos]
    norm_num [HAWKISH_THRESHOLD]

/-- C4 witness: the zero case of the formula applied to empty
dictionaries over the empty text. -/
theorem claim_C4_witness :
    score_dimension [] [] [] = (0, 0, [], []) :=
  (claim_C4.1 [] [] [] (fun t ht => absurd ht (List.not_mem_nil t))
    (fun t ht => absurd ht (List.not_mem_nil t))).1 (by simp [termSum])

/-! ### Router: failure isolation and keyword fallback -/

theorem routePlugins_skip {α β : Type}
    (sel : ClassifierBackend → α → Option β) (b : ClassifierBackend)
    (rest : List ClassifierBackend) (x : α)
    (h : b.enabled = false ∨ sel b x = none) :
    routePlugins sel (b :: rest) x = routePlugins sel rest x := by
  rcases h with h | h
  · simp [routePlugins, h]
  · cases he : b.enabled <;> simp [routePlugins, he, h]

theorem routePlugins_none {α β : Type}
    (sel : ClassifierBackend → α → Option β)
    (reg : List ClassifierBackend) (x : α)
    (h : ∀ b ∈ reg, b.enabled = true → sel b x = none) :
    routePlugins sel reg x = none := by
  induction reg with
  | nil => rfl
  | cons b rest ih =>
    have hr := ih (fun c hc hce => h c (List.mem_cons_of_mem b hc) hce)
    cases he : b.enabled
    · simp [routePlugins, he, hr]
    · simp [routePlugins, he, h b (List.mem_cons_self b rest) he, hr]

/-- C3: failure isolation and totality of the three routing
entrypoints.  First, a disabled or failing (exception-raising, i.e.
`none`-returning) head backend is skipped: routing over `b :: rest`
equals routing over `rest`, so registration order is respected and no
backend failure propagates.  Second, when every enabled registered
backend and every available environment-gated semantic backend fails,
each entrypoint returns exactly the deterministic keyword
classifier's result — the entrypoints are total functions. -/
theorem claim_C3 :
    (∀ (env : SemanticEnv) (b : ClassifierBackend)
        (rest : List ClassifierBackend) (text : String)
        (snippets : List String),
      ((b.enabled = false ∨ b.classify_text_fn text = none) →
        classify_text (b :: rest) env text = classify_text rest env text) ∧
      ((b.enabled = false ∨ b.classify_text_with_evidence_fn text = none) →
        classify_text_with_evidence (b :: rest) env text =
          classify_text_with_evidence rest env text) ∧
      ((b.enabled = false ∨ b.classify_snippets_fn snippets = none) →
        classify_snippets (b :: rest) env snippets =
          classify_snippets rest env snippets)) ∧
    (∀ (reg : List ClassifierBackend) (env : SemanticEnv) (text : String)
        (snippets : List String),
      (∀ b ∈ reg, b.enabled = true →
        b.classify_text_fn text = none ∧
        b.classify_text_with_evidence_fn text = none ∧
        b.classify_snippets_fn snippets = none) →
      (env.cerebras_key = true →
        env.cerebras_text text = none ∧
        env.cerebras_evidence text = none ∧
        env.cerebras_snippets snippets = none) →
      (env.gemini_key = true →
        env.gemini_text text = none ∧
        env.gemini_evidence text = none ∧
        env.gemini_snippets snippets = none) →
      (env.openai_key = true →
        env.openai_text text = none ∧
        env.openai_evidence text = none ∧
        env.openai_snippets snippets = none) →
      classify_text reg env text = classify_text_keyword text ∧
      classify_text_with_evidence reg env text =
        classify_text_with_evidence_keyword text ∧
      classify_snippets reg env snippets =
        classify_snippets_keyword snippets) := by
  constructor
  · intro env b rest text snippets
    refine ⟨?_, ?_, ?_⟩
    · intro h
      unfold classify_text
      rw [routePlugins_skip _ b rest text h]
    · intro h
      unfold classify_text_with_evidence
      rw [routePlugins_skip _ b rest text h]
    · intro h
      unfold classify_snippets
      rw [routePlugins_skip _ b rest snippets h]
  · intro reg env text snippets hreg hc hg ho
    have hr1 : routePlugins (fun b => b.classify_text_fn) reg text = none :=
      routePlugins_none _ reg text (fun b hb hbe => (hreg b hb hbe).1)
    have hr2 : routePlugins (fun b => b.classify_text_with_evidence_fn)
        reg text = none :=
      routePlugins_none _ reg text (fun b hb hbe => (hreg b hb hbe).2.1)
    have hr3 : routePlugins (fun b => b.classify_snippets_fn)
        reg snippets = none :=
      routePlugins_none _ reg snippets (fun b hb hbe => (hreg b hb hbe).2.2)
    have hg1 : (if env.cerebras_key then env.cerebras_text text else none) =
        none := by
      cases hk : env.cerebras_key
      · rfl
      · simpa using (hc hk).1
    have hg2 : (if env.cerebras_key then env.cerebras_evidence text
        else none) = none := by
      cases hk : env.cerebras_key
      · rfl
      · simpa using (hc hk).2.1
    have hg3 : (if env.cerebras_key then env.cerebras_snippets snippets
        else none) = none := by
      cases hk : env.cerebras_key
      · rfl
      · simpa using (hc hk).2.2
    have hh1 : (if env.gemini_key then env.gemini_text text else none) =
        none := by
      cases hk : env.gemini_key
      · rfl
      · simpa using (hg hk).1
    have hh2 : (if env.gemini_key then env.gemini_evidence text else none) =
        none := by
      cases hk : env.gemini_key
      · rfl
      · simpa using (hg hk).2.1
    have hh3 : (if env.gemini_key then env.gemini_snippets snippets
        else none) = none := by
      cases hk : env.gemini_key
      · rfl
      · simpa using (hg hk).2.2
    have hi1 : (if env.openai_key then env.openai_text text else none) =
        none := by
      cases hk : env.openai_key
      · rfl
      · simpa using (ho hk).1
    have hi2 : (if env.openai_key then env.openai_evidence text else none) =
        none := by
      cases hk : env.openai_key
      · rfl
      · simpa using (ho hk).2.1
    have hi3 : (if env.openai_key then env.openai_snippets snippets
        else none) = none := by
      cases hk : env.openai_key
      · rfl
      · simpa using (ho hk).2.2
    refine ⟨?_, ?_, ?_⟩
    · simp only [classify_text, hr1, hg1, hh1, hi1]
    · simp only [classify_text_with_evidence, hr2, hg2, hh2, hi2]
    · simp only [classify_snippets, hr3, hg3, hh3, hi3]

/-- C3 witness: with one enabled always-failing backend registered and
no API key configured, the head backend is skipped and each
entrypoint returns the keyword result. -/
theorem claim_C3_witness :
    classify_text [noneBackend] emptyEnv "policy" =
      classify_text [] emptyEnv "policy" ∧
    classify_text [noneBackend] emptyEnv "policy" =
      classify_text_keyword "policy" ∧
    classify_text_with_evidence [noneBackend] emptyEnv "policy" =
      classify_text_with_evidence_keyword "policy" ∧
    classify_snippets [noneBackend] emptyEnv ["a"] =
      classify_snippets_keyword ["a"] :=
  have hreg : ∀ b ∈ [noneBackend], b.enabled = true →
      b.classify_text_fn "policy" = none ∧
      b.classify_text_with_evidence_fn "policy" = none ∧
      b.classify_snippets_fn ["a"] = none := by
    intro b hb hbe
    rw [List.mem_singleton] at hb
    subst hb
    exact ⟨rfl, rfl, rfl⟩
  have hfall := claim_C3.2 [noneBackend] emptyEnv "policy" ["a"] hreg
    (fun hk => Bool.noConfusion hk) (fun hk => Bool.noConfusion hk)
    (fun hk => Bool.noConfusion hk)
  ⟨(claim_C3.1 emptyEnv noneBackend [] "policy" ["a"]).1 (Or.inr rfl),
   hfall.1, hfall.2.1, hfall.2.2⟩

end FomcTracker
